import Mathlib

/-!
# Verification of the `block_scoping` scope-resolution engine

A shallow embedding of `src/block_scoping/scoped.py`: the Python AST fragment
the checker handles, the pure symbol extractors, the `ScopeChecker` visitor
(state-passing over an explicit scope stack, with `Except` modelling the
`BlockScopingException` raised in strict mode), and the class analyzer
`_check_class`.  Theorems at the end settle the frozen claims about this code.

Modelling conventions:
* Python `set` becomes `Finset String`; only membership/union/intersection
  are used by the source, so iteration order never matters.
* `self._scopes` is a Python list with append/pop at the end and `[-1]` as the
  top; we store the stack with the *head* of the list as the top scope, so the
  bottom (global) scope is the last element.
* Diagnostics are kept structured (`Diag`) instead of formatted strings,
  because the Python message interpolates a `set` whose printing order is
  unspecified; the structured record keeps exactly the data the message holds
  (line number, location tag, kind, and the reported in-scope set).
* `ast.For`/`ast.AsyncFor`, `ast.FunctionDef`/`ast.AsyncFunctionDef`,
  `ast.With`/`ast.AsyncWith` and `ast.SetComp` (delegated to `visit_ListComp`)
  are merged into one constructor each, since the source delegates the async
  visitor to the sync one.
* Default-value and annotation expressions of function parameters are not
  modelled (the source only reads parameter *names* when seeding scopes).
-/

/-- Expression context, mirroring `ast.Load` / `ast.Store` / `ast.Del`. -/
inductive Ctx where
  | load
  | store
  | del
deriving DecidableEq, Repr

/-- An `ast.alias` entry of an import statement. -/
structure ImportAlias where
  name : String
  asname : Option String
deriving DecidableEq, Repr

/-- The parameter names of an `ast.arguments` node, the only part of it the
checker reads (`visit_FunctionDef` lines 204-212). -/
structure Args where
  args : List String
  vararg : Option String
  kwarg : Option String
  kwonlyargs : List String
deriving DecidableEq, Repr

mutual

/-- The expression fragment of the Python AST that `scoped.py` traverses. -/
inductive Expr : Type where
  | name (lineno : Nat) (id : String) (ctx : Ctx)
  | attributeE (lineno : Nat) (value : Expr) (attr : String) (ctx : Ctx)
  | call (lineno : Nat) (func : Expr) (args : List Expr)
  | constant (lineno : Nat)
  | binOp (lineno : Nat) (left right : Expr)
  | tupleE (lineno : Nat) (elts : List Expr) (ctx : Ctx)
  | listE (lineno : Nat) (elts : List Expr) (ctx : Ctx)
  | starred (lineno : Nat) (value : Expr) (ctx : Ctx)
  | namedExpr (lineno : Nat) (target value : Expr)
  | lambdaE (lineno : Nat) (args : Args) (body : Expr)
  | listComp (lineno : Nat) (elt : Expr) (generators : List Comp)
  | setComp (lineno : Nat) (elt : Expr) (generators : List Comp)
  | dictComp (lineno : Nat) (key value : Expr) (generators : List Comp)

/-- An `ast.comprehension` generator clause. -/
inductive Comp : Type where
  | mk (target : Expr) (iter : Expr) (ifs : List Expr)

/-- The statement fragment of the Python AST that `scoped.py` traverses. -/
inductive Stmt : Type where
  | assign (lineno : Nat) (targets : List Expr) (value : Expr)
  | annAssign (lineno : Nat) (target : Expr) ( annotation : Expr) (value : Option Expr)
  | augAssign (lineno : Nat) (target : Expr) (value : Expr)
  | exprStmt (lineno : Nat) (value : Expr)
  | ret (lineno : Nat) (value : Option Expr)
  | passStmt (lineno : Nat)
  | functionDef (lineno : Nat) (name : String) (args : Args)
      (body : List Stmt) (decoratorList : List Expr)
  | forStmt (lineno : Nat) (target iter : Expr) (body orelse : List Stmt)
  | whileStmt (lineno : Nat) (test : Expr) (body orelse : List Stmt)
  | ifStmt (lineno : Nat) (test : Expr) (body orelse : List Stmt)
  | tryStmt (lineno : Nat) (body : List Stmt) (handlers : List Handler)
      (orelse finalbody : List Stmt)
  | withStmt (lineno : Nat) (items : List WithItem) (body : List Stmt)
  | importStmt (lineno : Nat) (names : List ImportAlias)
  | importFrom (lineno : Nat) (module : String) (names : List ImportAlias)

/-- An `ast.ExceptHandler` clause of a try statement. -/
inductive Handler : Type where
  | mk (lineno : Nat) (type : Option Expr) (name : Option String) (body : List Stmt)

/-- An `ast.withitem` of a with statement. -/
inductive WithItem : Type where
  | mk (contextExpr : Expr) (optionalVars : Option Expr)

end

namespace BlockScoping

/-- A scope: a set of bound symbol names (`self._scopes` elements). -/
abbrev Vars := Finset String

/-- `set(l)` for a Python list of names. -/
def varsOfList (l : List String) : Vars := l.foldr insert ∅

mutual

/-- `_extract_assign_vars` (scoped.py lines 31-49): recursively unpacks
assignment targets into bound names, turning `self.<attr>` targets (whose
inner `Name` has `Load` context and id `self`) into the namespaced form. -/
def _extract_assign_vars : Expr → List String
  | .name _ id _ => [id]
  | .tupleE _ elts _ => extractAssignVarsList elts
  | .listE _ elts _ => extractAssignVarsList elts
  | .starred _ v _ => _extract_assign_vars v
  | .attributeE _ value attr _ =>
      match value with
      | .name _ vid vctx =>
          if vid = "self" ∧ vctx = Ctx.load then [String.append ("self.") attr] else []
      | _ => []
  | _ => []

/-- The inner loop of `extract_rec` over tuple/list elements. -/
def extractAssignVarsList : List Expr → List String
  | [] => []
  | e :: rest => _extract_assign_vars e ++ extractAssignVarsList rest

end

/-- The per-generator part of `_extract_comprehension_vars` (lines 51-61):
a simple `Name` target, or the `Name` elements of a one-level `Tuple`. -/
def compTargetVars : Comp → List String
  | .mk target _ _ =>
      match target with
      | .name _ id _ => [id]
      | .tupleE _ elts _ =>
          elts.filterMap fun e =>
            match e with
            | .name _ id _ => some id
            | _ => none
      | _ => []

/-- `_extract_comprehension_vars` (lines 51-61) over a node's generators. -/
def _extract_comprehension_vars (generators : List Comp) : List String :=
  generators.foldl (fun acc g => acc ++ compTargetVars g) []

/-- `_decorated_to_skip_checking` (lines 63-68): a bare-`Name` decorator whose
id is `no_block_scoping.__name__`. -/
def _decorated_to_skip_checking (decoratorList : List Expr) : Bool :=
  decoratorList.any fun d =>
    match d with
    | .name _ id _ => id = "no_block_scoping"
    | _ => false

mutual

/-- `WalrusVisitor` (lines 19-25) run over an expression: collects the ids of
`Name` targets of `NamedExpr` nodes.  Since `visit_NamedExpr` does not call
`generic_visit`, the children of a collected `NamedExpr` are not explored;
every other node is traversed generically. -/
def walrusTargets : Expr → List String
  | .namedExpr _ target _ =>
      match target with
      | .name _ id _ => [id]
      | _ => []
  | .name _ _ _ => []
  | .constant _ => []
  | .attributeE _ value _ _ => walrusTargets value
  | .call _ func args => walrusTargets func ++ walrusTargetsList args
  | .binOp _ l r => walrusTargets l ++ walrusTargets r
  | .tupleE _ elts _ => walrusTargetsList elts
  | .listE _ elts _ => walrusTargetsList elts
  | .starred _ v _ => walrusTargets v
  | .lambdaE _ _ body => walrusTargets body
  | .listComp _ elt gens => walrusTargets elt ++ walrusTargetsGens gens
  | .setComp _ elt gens => walrusTargets elt ++ walrusTargetsGens gens
  | .dictComp _ k v gens => walrusTargets k ++ walrusTargets v ++ walrusTargetsGens gens

/-- `WalrusVisitor` over a list of child expressions. -/
def walrusTargetsList : List Expr → List String
  | [] => []
  | e :: rest => walrusTargets e ++ walrusTargetsList rest

/-- `WalrusVisitor` over comprehension generators (target, iter, ifs are all
children of the `comprehension` node). -/
def walrusTargetsGens : List Comp → List String
  | [] => []
  | .mk target iter ifs :: rest =>
      walrusTargets target ++ walrusTargets iter ++ walrusTargetsList ifs
        ++ walrusTargetsGens rest

end

/-- Scan for an occurrence of two consecutive underscores anywhere in the
character list (the trailing `__` of the pattern, with no end anchor). -/
def containsDD : List Char → Bool
  | '_' :: '_' :: _ => true
  | _ :: rest => containsDD rest
  | [] => false

/-- `builtin_var.match(v)` for `builtin_var = re.compile("__(.+)__")`
(line 71): `re.match` anchors at the start only, so this holds iff `v` starts
with `__`, followed by at least one character, followed by `__` anywhere
later (a trailing remainder is allowed). -/
def builtin_var_match (v : String) : Bool :=
  match v.toList with
  | '_' :: '_' :: _ :: rest => containsDD rest
  | _ => false

/-- `alias.name.split('.')[0]`: the top-level package of a dotted module. -/
def topPackage (n : String) : String := (n.splitOn (".")).headD n

/-- `ImportVisitor.visit_Import` (lines 78-84): for each alias, the module
path, then the alias if present (Python truthiness: `if alias.asname:`),
otherwise the top-level package name. -/
def importVisitImport (names : List ImportAlias) : List String :=
  names.foldl
    (fun acc a =>
      acc ++ [a.name] ++
        match a.asname with
        | some s => if s = "" then [topPackage a.name] else [s]
        | none => [topPackage a.name])
    []

/-- `ImportVisitor.visit_ImportFrom` (lines 86-90): for each alias, the dotted
`module.name` form unless the name is the wildcard, then always
`alias.asname or alias.name`. -/
def importVisitFrom (module : String) (names : List ImportAlias) : List String :=
  names.foldl
    (fun acc a =>
      acc ++
        (if a.name ≠ "*" then [module ++ (".") ++ a.name] else []) ++
        [match a.asname with
         | some s => if s = "" then a.name else s
         | none => a.name])
    []

/-- The data carried by a diagnostic message (`_error`, lines 115-119). -/
inductive DiagKind where
  | varNotFound (v : String) (inScope : Vars)
  | loopVarReuse (v : String)
deriving DecidableEq

/-- One diagnostic: the line number and location tag interpolated by `_loc`,
plus the kind-specific payload of the message. -/
structure Diag where
  lineno : Nat
  loc : String
  kind : DiagKind
deriving DecidableEq

/-- The mutable state of a `ScopeChecker` (constructor, lines 93-107).
`scopes` is `self._scopes` with the head as the top (`[-1]`) scope. -/
structure St where
  scopes : List Vars
  forLoopVars : Vars
  funcName : Option String
  filename : Option String
  attrCheck : Bool
  lastFuncScope : Vars
  errors : List Diag
deriving DecidableEq

namespace St

/-- `_loc` (lines 109-113): the filename if truthy, else the function name
(rendering Python `None` as the string it would interpolate to). -/
def locName (st : St) : String :=
  match st.filename with
  | some f => if f = "" then (match st.funcName with | some n => n | none => "None") else f
  | none => match st.funcName with | some n => n | none => "None"

end St

/-- Apply a function to the top scope (`self._scopes[-1]`); the stack is
never empty in any reachable state, so the empty case is vacuous. -/
def updTop (f : Vars → Vars) : List Vars → List Vars
  | [] => []
  | h :: t => f h :: t

/-- `self._scopes.append(set(extra_vars))`: entering `_scope` (lines 121-124). -/
def pushScope (extraVars : List String) (st : St) : St :=
  { st with scopes := varsOfList extraVars :: st.scopes }

/-- `self._scopes.pop()`: leaving `_scope` (line 125). -/
def popScope (st : St) : St :=
  { st with scopes := st.scopes.tail }

/-- `current_scope.add(v)`: bind a name in the top scope. -/
def bindVar (v : String) (st : St) : St :=
  { st with scopes := updTop (insert v) st.scopes }

/-- Bind a list of names in the top scope, left to right. -/
def bindVars (vs : List String) (st : St) : St :=
  vs.foldl (fun s v => bindVar v s) st

/-- `self._scopes[-1].update(vs)`: merge a set into the top scope. -/
def updateTop (vs : Vars) (st : St) : St :=
  { st with scopes := updTop (fun h => h ∪ vs) st.scopes }

/-- `_error` (lines 115-119): append the diagnostic to `self.errors`, then in
strict mode (`self._filename is None`) raise `BlockScopingException`. -/
def _error (lineno : Nat) (k : DiagKind) (st : St) : Except Diag St :=
  let d : Diag := ⟨lineno, st.locName, k⟩
  if st.filename = none then Except.error d
  else Except.ok { st with errors := st.errors ++ [d] }

/-- The union of `self._scopes[1:]` (all but the global scope), reported in
the not-found message (lines 135-137). -/
def nonGlobalUnion (scopes : List Vars) : Vars :=
  scopes.dropLast.foldl (fun acc s => acc ∪ s) ∅

/-- `_check_in_scope` (lines 127-142): dunder-pattern names are exempt;
otherwise report unless some scope on the stack contains the name. -/
def _check_in_scope (lineno : Nat) (v : String) (st : St) : Except Diag St :=
  if builtin_var_match v then Except.ok st
  else if st.scopes.any fun s => v ∈ s then Except.ok st
  else _error lineno (.varNotFound v (nonGlobalUnion st.scopes)) st

/-- The loop of `visit_AugAssign` (lines 180-188): check each extracted
target name. -/
def checkVars (lineno : Nat) : List String → St → Except Diag St
  | [], st => Except.ok st
  | v :: rest, st => do
      let st ← _check_in_scope lineno v st
      checkVars lineno rest st

/-- The reuse check of `visit_For` (lines 256-264): each non-wildcard target
already registered as an active loop variable is reported. -/
def checkLoopReuse (lineno : Nat) : List String → St → Except Diag St
  | [], st => Except.ok st
  | v :: rest, st =>
      if v = "_" then checkLoopReuse lineno rest st
      else if v ∈ st.forLoopVars then do
        let st ← _error lineno (.loopVarReuse v) st
        checkLoopReuse lineno rest st
      else checkLoopReuse lineno rest st

/-- The exit bookkeeping of `visit_For` (lines 271-275): remove each target
from the registry if still present. -/
def removeLoopVars (ite : List String) (st : St) : St :=
  { st with forLoopVars := ite.foldl (fun s v => if v ∈ s then s.erase v else s) st.forLoopVars }

/-- `set.intersection(*inherited_scope)` for a nonempty list of scopes. -/
def interList : List Vars → Vars
  | [] => ∅
  | h :: t => t.foldl (fun acc s => acc ∩ s) h

/-- Whether an `if`/`elif` chain, represented by successive `orelse` lists,
reaches a terminal `else` block (the loop of `visit_If`, lines 296-314:
an `orelse` whose first statement is an `If` is an `elif` link). -/
def chainHasElse : List Stmt → Bool
  | [] => false
  | .ifStmt _ _ _ orelse2 :: _ => chainHasElse orelse2
  | _ :: _ => true

/-- The attribute check of `visit_Attribute` (lines 152-158): only when
attribute checking is enabled and the value is the `Name` `self` is the
namespaced `self.<attr>` looked up. -/
def checkSelfAttribute (lineno : Nat) (value : Expr) (attr : String) (st : St) :
    Except Diag St :=
  if st.attrCheck then
    match value with
    | .name _ vid _ =>
        if vid = "self" then _check_in_scope lineno (String.append ("self.") attr) st
        else Except.ok st
    | _ => Except.ok st
  else Except.ok st

/-- The binding step of `visit_NamedExpr` (lines 366-369): a `Name` walrus
target is added to the top scope. -/
def bindWalrusTarget (target : Expr) (st : St) : St :=
  match target with
  | .name _ id _ => bindVar id st
  | _ => st

/-- The `new_vars` loop of `visit_With` (lines 346-351). -/
def withNewVars (items : List WithItem) : List String :=
  items.foldl
    (fun acc i =>
      match i with
      | .mk _ (some ov) => acc ++ _extract_assign_vars ov
      | .mk _ none => acc)
    []

/-- The `block_scope()` recognition of `visit_With` (lines 353-355): the
first item's context expression is a call to the bare name `block_scope`. -/
def isBlockScopeWith (items : List WithItem) : Bool :=
  match items with
  | .mk (.call _ (.name _ fid _) _) _ :: _ => fid == "block_scope"
  | _ => false

/-- `node.lineno` of an expression node. -/
def exprLine : Expr → Nat
  | .name lineno _ _ => lineno
  | .attributeE lineno _ _ _ => lineno
  | .call lineno _ _ => lineno
  | .constant lineno => lineno
  | .binOp lineno _ _ => lineno
  | .tupleE lineno _ _ => lineno
  | .listE lineno _ _ => lineno
  | .starred lineno _ _ => lineno
  | .namedExpr lineno _ _ => lineno
  | .lambdaE lineno _ _ => lineno
  | .listComp lineno _ _ => lineno
  | .setComp lineno _ _ => lineno
  | .dictComp lineno _ _ _ => lineno

mutual

/-- `ScopeChecker.visit` dispatch on expressions.  Nodes with an explicit
`visit_*` method follow it; all other nodes follow `generic_visit`, which
visits every child node in field order. -/
def visitExpr : Expr → St → Except Diag St
  | .name lineno id ctx, st =>
      -- visit_Name (lines 192-194)
      match ctx with
      | .load => _check_in_scope lineno id st
      | _ => Except.ok st
  | .attributeE lineno value attr _, st => do
      -- visit_Attribute (lines 152-158): check `self.<attr>` reads when
      -- attribute checking is on, then generic_visit the children.
      let st ← checkSelfAttribute lineno value attr st
      visitExpr value st
  | .call _ func args, st => do
      -- generic_visit: func then args
      let st ← visitExpr func st
      visitExprs args st
  | .constant _, st => Except.ok st
  | .binOp _ l r, st => do
      let st ← visitExpr l st
      visitExpr r st
  | .tupleE _ elts _, st => visitExprs elts st
  | .listE _ elts _, st => visitExprs elts st
  | .starred _ v _, st => visitExpr v st
  | .namedExpr _ target value, st => do
      -- visit_NamedExpr (lines 366-370): bind a Name target into the top
      -- scope, then generic_visit target and value.
      let st := bindWalrusTarget target st
      let st ← visitExpr target st
      visitExpr value st
  | .lambdaE _ args body, st => do
      -- visit_Lambda (lines 244-246)
      let st := pushScope args.args st
      let st ← visitExpr body st
      Except.ok (popScope st)
  | .listComp _ elt gens, st => do
      -- visit_ListComp (lines 227-233): the element and each generator's
      -- filter conditions are visited in the pushed scope; iterables are not.
      let st := pushScope (_extract_comprehension_vars gens) st
      let st ← visitExpr elt st
      let st ← visitCompIfs gens st
      Except.ok (popScope st)
  | .setComp _ elt gens, st => do
      -- visit_SetComp (lines 235-236) delegates to visit_ListComp
      let st := pushScope (_extract_comprehension_vars gens) st
      let st ← visitExpr elt st
      let st ← visitCompIfs gens st
      Except.ok (popScope st)
  | .dictComp _ k v gens, st => do
      -- visit_DictComp (lines 218-225)
      let st := pushScope (_extract_comprehension_vars gens) st
      let st ← visitExpr k st
      let st ← visitExpr v st
      let st ← visitCompIfs gens st
      Except.ok (popScope st)

/-- `generic_visit` over a list of child expressions. -/
def visitExprs : List Expr → St → Except Diag St
  | [], st => Except.ok st
  | e :: rest, st => do
      let st ← visitExpr e st
      visitExprs rest st

/-- Visit an optional child expression (absent children are skipped). -/
def visitOptExpr : Option Expr → St → Except Diag St
  | none, st => Except.ok st
  | some e, st => visitExpr e st

/-- The filter-condition loop shared by the comprehension visitors:
`for g in node.generators: for cond in g.ifs: self.visit(cond)`. -/
def visitCompIfs : List Comp → St → Except Diag St
  | [], st => Except.ok st
  | .mk _ _ ifs :: rest, st => do
      let st ← visitExprs ifs st
      visitCompIfs rest st

/-- `ScopeChecker.visit` dispatch on statements. -/
def visitStmt : Stmt → St → Except Diag St
  | .assign _ targets value, st => do
      -- visit_Assign (lines 160-173): bind all extracted target names into
      -- the current scope, then generic_visit (targets, then value).
      let st := bindVars (extractAssignVarsList targets) st
      let st ← visitExprs targets st
      visitExpr value st
  | .annAssign _ target _ _, st =>
      -- visit_AnnAssign (lines 175-178): bind the target names only; no
      -- generic_visit, so neither annotation nor value is traversed.
      Except.ok (bindVars (_extract_assign_vars target) st)
  | .augAssign lineno target value, st => do
      -- visit_AugAssign (lines 180-190): each extracted target name must
      -- already be in scope; then generic_visit (target, then value).
      let st ← checkVars lineno (_extract_assign_vars target) st
      let st ← visitExpr target st
      visitExpr value st
  | .exprStmt _ value, st => visitExpr value st
  | .ret _ value, st => visitOptExpr value st
  | .passStmt _, st => Except.ok st
  | .functionDef _ name args body decoratorList, st =>
      -- visit_FunctionDef (lines 196-216) / visit_AsyncFunctionDef
      if _decorated_to_skip_checking decoratorList then Except.ok st
      else do
        let st := bindVar name st
        let argNames := args.args ++ args.vararg.toList ++ args.kwarg.toList
            ++ args.kwonlyargs
        let st := pushScope argNames st
        let st ← visitStmts body st
        let st ← visitExprs decoratorList st
        let st := { st with lastFuncScope := st.scopes.headD ∅ }
        Except.ok (popScope st)
  | .forStmt _ target iter body orelse, st => do
      -- visit_For (lines 251-275) / visit_AsyncFor
      let ite := _extract_assign_vars target
      let st ← checkLoopReuse (exprLine target) ite st
      let st := { st with forLoopVars := st.forLoopVars ∪ varsOfList ite }
      let st := pushScope ite st
      let st ← visitExpr target st
      let st ← visitExpr iter st
      let st ← visitStmts body st
      let st ← visitStmts orelse st
      let st := popScope st
      Except.ok (removeLoopVars ite st)
  | .whileStmt _ test body orelse, st => do
      -- visit_While (lines 280-283)
      let st := pushScope (walrusTargets test) st
      let st ← visitExpr test st
      let st ← visitStmts body st
      let st ← visitStmts orelse st
      Except.ok (popScope st)
  | .ifStmt _ test body orelse, st => do
      -- visit_If (lines 285-318)
      let walrusVars := walrusTargets test
      let st := pushScope walrusVars st
      let st ← visitStmts body st
      let inherited := [st.scopes.headD ∅]
      let st := popScope st
      let out ← visitIfChain walrusVars inherited orelse st
      if out.2.1 then Except.ok (updateTop (interList out.1) out.2.2)
      else Except.ok out.2.2
  | .tryStmt _ body handlers orelse finalbody, st => do
      -- visit_Try (lines 320-343): handlers first, each in its own scope,
      -- then the try body, else block and finally block in the current scope.
      let st ← visitHandlers handlers st
      let st ← visitStmts body st
      let st ← visitStmts orelse st
      visitStmts finalbody st
  | .withStmt _ items body, st => do
      -- visit_With (lines 345-361) / visit_AsyncWith
      let newVars := withNewVars items
      if isBlockScopeWith items then do
        let st := pushScope newVars st
        let st ← visitWithItems items st
        let st ← visitStmts body st
        Except.ok (popScope st)
      else do
        let st := updateTop (varsOfList newVars) st
        let st ← visitWithItems items st
        visitStmts body st
  | .importStmt _ names, st =>
      -- visit_Import (lines 376-379)
      Except.ok (updateTop (varsOfList (importVisitImport names)) st)
  | .importFrom _ module names, st =>
      -- visit_ImportFrom (lines 381-384)
      Except.ok (updateTop (varsOfList (importVisitFrom module names)) st)

/-- Visit a list of statements in order (`for stmt in body: self.visit(stmt)`,
or `generic_visit` over a statement-list field). -/
def visitStmts : List Stmt → St → Except Diag St
  | [], st => Except.ok st
  | s :: rest, st => do
      let st ← visitStmt s st
      visitStmts rest st

/-- One `except` handler (the loop body of `visit_Try`, lines 323-329):
push a scope holding only the exception-binding name, `generic_visit` the
handler (its type expression and body), pop. -/
def visitHandler1 : Handler → St → Except Diag St
  | .mk _ type name hbody, st => do
      let newVars := match name with | some n => [n] | none => []
      let st := pushScope newVars st
      let st ← visitOptExpr type st
      let st ← visitStmts hbody st
      Except.ok (popScope st)

/-- The handler loop of `visit_Try`. -/
def visitHandlers : List Handler → St → Except Diag St
  | [], st => Except.ok st
  | h :: rest, st => do
      let st ← visitHandler1 h st
      visitHandlers rest st

/-- `generic_visit` over `withitem` nodes: context expression, then the
optional-vars target expression. -/
def visitWithItems : List WithItem → St → Except Diag St
  | [], st => Except.ok st
  | .mk ce ov :: rest, st => do
      let st ← visitExpr ce st
      let st ← visitOptExpr ov st
      visitWithItems rest st

/-- The `while current_node.orelse:` loop of `visit_If` (lines 295-314),
recursing along the `orelse` chain.  Returns the retained per-branch scopes
(`inherited_scope`), whether a terminal `else` was found, and the state. -/
def visitIfChain (walrusVars : List String) (inherited : List Vars)
    (orelse : List Stmt) (st : St) : Except Diag (List Vars × Bool × St) :=
  match orelse with
  | [] => Except.ok (inherited, false, st)
  | .ifStmt _ test2 body2 orelse2 :: _ => do
      -- an elif link: only `orelse[0]` is examined
      let walrusVars := walrusVars ++ walrusTargets test2
      let st := pushScope walrusVars st
      let st ← visitStmts body2 st
      let inherited := inherited ++ [st.scopes.headD ∅]
      let st := popScope st
      visitIfChain walrusVars inherited orelse2 st
  | stmts => do
      -- the terminal else block
      let st := pushScope walrusVars st
      let st ← visitStmts stmts st
      let inherited := inherited ++ [st.scopes.headD ∅]
      let st := popScope st
      Except.ok (inherited, true, st)

end

/-- An `ast.FunctionDef` node as stored in `method_nodes` by `_check_class`. -/
structure FuncDef where
  lineno : Nat
  name : String
  args : Args
  body : List Stmt
  decoratorList : List Expr

/-- The statement form of a function definition node. -/
def FuncDef.toStmt (f : FuncDef) : Stmt :=
  .functionDef f.lineno f.name f.args f.body f.decoratorList

/-- An `ast.ClassDef` node as consumed by `_check_class`. -/
structure ClassDef where
  name : String
  bases : List Expr
  body : List Stmt

mutual

/-- The `ast.walk` collection of `_extract_self_assignments` (lines 386-413)
over one statement and all of its descendants: assignment (plain, annotated,
walrus-with-attribute-target) targets of the form `self.<attr>`. -/
def selfAssignedStmt : Stmt → List String
  | .assign _ targets value =>
      (extractAssignVarsList targets).filter (fun v => v.startsWith ("self."))
        ++ selfAssignedExprs targets ++ selfAssignedExpr value
  | .annAssign _ target ann value =>
      (_extract_assign_vars target).filter (fun v => v.startsWith ("self."))
        ++ selfAssignedExpr target ++ selfAssignedExpr ann ++ selfAssignedOpt value
  | .augAssign _ target value => selfAssignedExpr target ++ selfAssignedExpr value
  | .exprStmt _ value => selfAssignedExpr value
  | .ret _ value => selfAssignedOpt value
  | .passStmt _ => []
  | .functionDef _ _ _ body decoratorList =>
      selfAssignedStmts body ++ selfAssignedExprs decoratorList
  | .forStmt _ target iter body orelse =>
      selfAssignedExpr target ++ selfAssignedExpr iter
        ++ selfAssignedStmts body ++ selfAssignedStmts orelse
  | .whileStmt _ test body orelse =>
      selfAssignedExpr test ++ selfAssignedStmts body ++ selfAssignedStmts orelse
  | .ifStmt _ test body orelse =>
      selfAssignedExpr test ++ selfAssignedStmts body ++ selfAssignedStmts orelse
  | .tryStmt _ body handlers orelse finalbody =>
      selfAssignedStmts body ++ selfAssignedHandlers handlers
        ++ selfAssignedStmts orelse ++ selfAssignedStmts finalbody
  | .withStmt _ items body => selfAssignedItems items ++ selfAssignedStmts body
  | .importStmt _ _ => []
  | .importFrom _ _ _ => []

/-- `_extract_self_assignments` walk over a list of statements. -/
def selfAssignedStmts : List Stmt → List String
  | [] => []
  | s :: rest => selfAssignedStmt s ++ selfAssignedStmts rest

/-- `_extract_self_assignments` walk over one expression: a `NamedExpr` with
an `Attribute` target contributes its `self.<attr>` names (lines 406-411). -/
def selfAssignedExpr : Expr → List String
  | .name _ _ _ => []
  | .constant _ => []
  | .attributeE _ value _ _ => selfAssignedExpr value
  | .call _ func args => selfAssignedExpr func ++ selfAssignedExprs args
  | .binOp _ l r => selfAssignedExpr l ++ selfAssignedExpr r
  | .tupleE _ elts _ => selfAssignedExprs elts
  | .listE _ elts _ => selfAssignedExprs elts
  | .starred _ v _ => selfAssignedExpr v
  | .namedExpr _ target value =>
      (match target with
       | .attributeE _ _ _ _ =>
           (_extract_assign_vars target).filter (fun v => v.startsWith ("self."))
       | _ => [])
        ++ selfAssignedExpr target ++ selfAssignedExpr value
  | .lambdaE _ _ body => selfAssignedExpr body
  | .listComp _ elt gens => selfAssignedExpr elt ++ selfAssignedGens gens
  | .setComp _ elt gens => selfAssignedExpr elt ++ selfAssignedGens gens
  | .dictComp _ k v gens =>
      selfAssignedExpr k ++ selfAssignedExpr v ++ selfAssignedGens gens

/-- `_extract_self_assignments` walk over a list of expressions. -/
def selfAssignedExprs : List Expr → List String
  | [] => []
  | e :: rest => selfAssignedExpr e ++ selfAssignedExprs rest

/-- `_extract_self_assignments` walk over an optional expression. -/
def selfAssignedOpt : Option Expr → List String
  | none => []
  | some e => selfAssignedExpr e

/-- `_extract_self_assignments` walk over comprehension generators. -/
def selfAssignedGens : List Comp → List String
  | [] => []
  | .mk target iter ifs :: rest =>
      selfAssignedExpr target ++ selfAssignedExpr iter ++ selfAssignedExprs ifs
        ++ selfAssignedGens rest

/-- `_extract_self_assignments` walk over exception handlers. -/
def selfAssignedHandlers : List Handler → List String
  | [] => []
  | .mk _ type _ hbody :: rest =>
      selfAssignedOpt type ++ selfAssignedStmts hbody ++ selfAssignedHandlers rest

/-- `_extract_self_assignments` walk over with-items. -/
def selfAssignedItems : List WithItem → List String
  | [] => []
  | .mk ce ov :: rest =>
      selfAssignedExpr ce ++ selfAssignedOpt ov ++ selfAssignedItems rest

end

mutual

/-- The `ast.walk` collection of `_init_calls_any_method` (lines 434-442)
over one statement: the attribute names of calls of the shape
`self.<attr>(...)`. -/
def selfCallsStmt : Stmt → List String
  | .assign _ targets value => selfCallsExprs targets ++ selfCallsExpr value
  | .annAssign _ target ann value =>
      selfCallsExpr target ++ selfCallsExpr ann ++ selfCallsOpt value
  | .augAssign _ target value => selfCallsExpr target ++ selfCallsExpr value
  | .exprStmt _ value => selfCallsExpr value
  | .ret _ value => selfCallsOpt value
  | .passStmt _ => []
  | .functionDef _ _ _ body decoratorList =>
      selfCallsStmts body ++ selfCallsExprs decoratorList
  | .forStmt _ target iter body orelse =>
      selfCallsExpr target ++ selfCallsExpr iter
        ++ selfCallsStmts body ++ selfCallsStmts orelse
  | .whileStmt _ test body orelse =>
      selfCallsExpr test ++ selfCallsStmts body ++ selfCallsStmts orelse
  | .ifStmt _ test body orelse =>
      selfCallsExpr test ++ selfCallsStmts body ++ selfCallsStmts orelse
  | .tryStmt _ body handlers orelse finalbody =>
      selfCallsStmts body ++ selfCallsHandlers handlers
        ++ selfCallsStmts orelse ++ selfCallsStmts finalbody
  | .withStmt _ items body => selfCallsItems items ++ selfCallsStmts body
  | .importStmt _ _ => []
  | .importFrom _ _ _ => []

/-- `_init_calls_any_method` walk over a list of statements. -/
def selfCallsStmts : List Stmt → List String
  | [] => []
  | s :: rest => selfCallsStmt s ++ selfCallsStmts rest

/-- `_init_calls_any_method` walk over one expression. -/
def selfCallsExpr : Expr → List String
  | .name _ _ _ => []
  | .constant _ => []
  | .attributeE _ value _ _ => selfCallsExpr value
  | .call _ func args =>
      (match func with
       | .attributeE _ (.name _ vid _) attr _ => if vid = "self" then [attr] else []
       | _ => [])
        ++ selfCallsExpr func ++ selfCallsExprs args
  | .binOp _ l r => selfCallsExpr l ++ selfCallsExpr r
  | .tupleE _ elts _ => selfCallsExprs elts
  | .listE _ elts _ => selfCallsExprs elts
  | .starred _ v _ => selfCallsExpr v
  | .namedExpr _ target value => selfCallsExpr target ++ selfCallsExpr value
  | .lambdaE _ _ body => selfCallsExpr body
  | .listComp _ elt gens => selfCallsExpr elt ++ selfCallsGens gens
  | .setComp _ elt gens => selfCallsExpr elt ++ selfCallsGens gens
  | .dictComp _ k v gens =>
      selfCallsExpr k ++ selfCallsExpr v ++ selfCallsGens gens

/-- `_init_calls_any_method` walk over a list of expressions. -/
def selfCallsExprs : List Expr → List String
  | [] => []
  | e :: rest => selfCallsExpr e ++ selfCallsExprs rest

/-- `_init_calls_any_method` walk over an optional expression. -/
def selfCallsOpt : Option Expr → List String
  | none => []
  | some e => selfCallsExpr e

/-- `_init_calls_any_method` walk over comprehension generators. -/
def selfCallsGens : List Comp → List String
  | [] => []
  | .mk target iter ifs :: rest =>
      selfCallsExpr target ++ selfCallsExpr iter ++ selfCallsExprs ifs
        ++ selfCallsGens rest

/-- `_init_calls_any_method` walk over exception handlers. -/
def selfCallsHandlers : List Handler → List String
  | [] => []
  | .mk _ type _ hbody :: rest =>
      selfCallsOpt type ++ selfCallsStmts hbody ++ selfCallsHandlers rest

/-- `_init_calls_any_method` walk over with-items. -/
def selfCallsItems : List WithItem → List String
  | [] => []
  | .mk ce ov :: rest =>
      selfCallsExpr ce ++ selfCallsOpt ov ++ selfCallsItems rest

end

/-- `_extract_self_assignments` (lines 386-413): all `self.<attr>` assignment
targets found anywhere in any method of the class. -/
def _extract_self_assignments (classAst : ClassDef) : List String :=
  classAst.body.foldl
    (fun acc item =>
      match item with
      | .functionDef _ _ _ body decoratorList =>
          acc ++ selfAssignedStmts body ++ selfAssignedExprs decoratorList
      | _ => acc)
    []

/-- `_init_calls_any_method` (lines 415-444): whether the first method named
`__init__` contains a call `self.<m>(...)` for some method `m` of the class. -/
def _init_calls_any_method (classAst : ClassDef) : Bool :=
  let methodNames := classAst.body.filterMap fun item =>
    match item with
    | .functionDef _ n _ _ _ => some n
    | _ => none
  let initMethod := classAst.body.find? fun item =>
    match item with
    | .functionDef _ n _ _ _ => n == "__init__"
    | _ => false
  match initMethod with
  | some (.functionDef _ _ _ body decoratorList) =>
      (selfCallsStmts body ++ selfCallsExprs decoratorList).any
        (fun a => methodNames.contains a)
  | _ => false

/-- The fresh checker state built by the `ScopeChecker` constructor
(lines 93-107): one scope holding the global symbol set, the host-language
builtins (`dir(builtins)`, kept as a parameter), and the object attributes. -/
def initialState (builtins : Vars) (globalVars : List String) (objAttrs : Vars)
    (attrCheck : Bool) (funcName : Option String) (filename : Option String) : St :=
  { scopes := [varsOfList globalVars ∪ builtins ∪ objAttrs]
    forLoopVars := ∅
    funcName := funcName
    filename := filename
    attrCheck := attrCheck
    lastFuncScope := ∅
    errors := [] }

/-- `_check_func` (lines 446-456): run a fresh checker over the function node
and return its last function scope together with the collected errors (in
strict mode the exception propagates). -/
def _check_func (builtins : Vars) (funcAst : FuncDef) (scopeVars : List String)
    (attrCheck : Bool) (objAttrs : Vars) (filename : Option String) :
    Except Diag (Vars × List Diag) := do
  let st ← visitStmt funcAst.toStmt
    (initialState builtins scopeVars objAttrs attrCheck (some funcAst.name) filename)
  Except.ok (st.lastFuncScope, st.errors)

/-- The class-level scan of `_check_class` (lines 462-471): plain-`Name`
assignment and annotated-assignment targets at the top level of the body. -/
def classLevelVarsOf (body : List Stmt) : List String :=
  body.foldl
    (fun acc item =>
      match item with
      | .assign _ targets _ =>
          acc ++ targets.filterMap fun t =>
            match t with
            | .name _ id _ => some id
            | _ => none
      | .annAssign _ target _ _ =>
          (match target with
           | .name _ id _ => acc ++ [id]
           | _ => acc)
      | _ => acc)
    []

/-- Insert into `method_nodes`, with Python-dict semantics: a repeated key
overwrites the stored node but keeps its first insertion position. -/
def insertMethod (m : List (String × FuncDef)) (k : String) (v : FuncDef) :
    List (String × FuncDef) :=
  if m.any (fun p => p.1 == k) then m.map (fun p => if p.1 == k then (k, v) else p)
  else m ++ [(k, v)]

/-- The `method_nodes` mapping of `_check_class` (lines 472-473). -/
def methodNodesOf (body : List Stmt) : List (String × FuncDef) :=
  body.foldl
    (fun acc item =>
      match item with
      | .functionDef ln n a b d => insertMethod acc n ⟨ln, n, a, b, d⟩
      | _ => acc)
    []

/-- `method_nodes.get(k)`. -/
def lookupMethod (m : List (String × FuncDef)) (k : String) : Option FuncDef :=
  (m.find? fun p => p.1 == k).map fun p => p.2

/-- The method-checking loop of `_check_class` (lines 493-504): every method
other than `__init__`, in `method_nodes` order, is checked with the given
object attributes and attribute-check flag, accumulating errors. -/
def checkMethods (builtins : Vars) (methods : List (String × FuncDef))
    (scopeVars : List String) (objAttrs : Vars) (attrCheck : Bool)
    (filename : Option String) (acc : List Diag) : Except Diag (List Diag) :=
  match methods with
  | [] => Except.ok acc
  | (mname, m) :: rest =>
      if mname == "__init__" then
        checkMethods builtins rest scopeVars objAttrs attrCheck filename acc
      else do
        let r ← _check_func builtins m scopeVars attrCheck objAttrs filename
        checkMethods builtins rest scopeVars objAttrs attrCheck filename (acc ++ r.2)

/-- The object-attribute set `_check_class` computes before checking the
non-constructor methods (lines 480-491): `self.`-qualified class variables,
the `self.` names left in scope by `__init__`, and — when the class is not a
subclass and its constructor calls another method — every `self.` assignment
target found anywhere in the class. -/
def objAttrsOf (builtins : Vars) (classAst : ClassDef) (scopeVars : List String)
    (filename : Option String) : Except Diag (Vars × List Diag) := do
  let classLevelVars := classLevelVarsOf classAst.body
  let isSubClass : Bool := !classAst.bases.isEmpty
  let methodNodes := methodNodesOf classAst.body
  let objAttrs0 : Vars :=
    varsOfList (classLevelVars.map fun v => String.append ("self.") v)
  let initRes ←
    match lookupMethod methodNodes ("__init__") with
    | some initM => do
        let r ← _check_func builtins initM scopeVars false ∅ filename
        Except.ok (objAttrs0 ∪ r.1.filter (fun a => a.startsWith ("self.")), r.2)
    | none => Except.ok (objAttrs0, ([] : List Diag))
  let objAttrs :=
    if (!isSubClass) && _init_calls_any_method classAst then
      initRes.1 ∪ varsOfList (_extract_self_assignments classAst)
    else initRes.1
  Except.ok (objAttrs, initRes.2)

/-- `_check_class` (lines 458-506): widen the scope with class-level names
and `self.<method>` entries, check `__init__` first with attribute checking
off, derive the known object attributes, then check every other method with
attribute checking enabled iff the class has no base class. -/
def _check_class (builtins : Vars) (classAst : ClassDef) (scopeVars : List String)
    (filename : Option String) : Except Diag (List Diag) := do
  let classLevelVars := classLevelVarsOf classAst.body
  let isSubClass : Bool := !classAst.bases.isEmpty
  let methodNodes := methodNodesOf classAst.body
  let scopeVars := scopeVars ++ classLevelVars
      ++ methodNodes.map fun p => String.append ("self.") p.1
  let r ← objAttrsOf builtins classAst scopeVars filename
  checkMethods builtins methodNodes scopeVars r.1 (!isSubClass) filename r.2

/-!
### Unfolding equations

One rewriting lemma per pattern-match arm of the visitor functions (the
well-founded definitions do not reduce definitionally, so these proved
equations are the interface both for the invariant proofs and for running
the checker on concrete programs).
-/

@[simp] theorem visitExpr_name_def (ln : Nat) (id : String) (ctx : Ctx) (st : St) :
    visitExpr (.name ln id ctx) st =
      (match ctx with
       | .load => _check_in_scope ln id st
       | _ => Except.ok st) := by
  rw [visitExpr.eq_def]

@[simp] theorem visitExpr_attributeE_def (ln : Nat) (value : Expr) (attr : String)
    (ctx : Ctx) (st : St) :
    visitExpr (.attributeE ln value attr ctx) st =
      (checkSelfAttribute ln value attr st >>= fun st1 => visitExpr value st1) := by
  rw [visitExpr.eq_def]

@[simp] theorem visitExpr_call_def (ln : Nat) (func : Expr) (args : List Expr) (st : St) :
    visitExpr (.call ln func args) st =
      (visitExpr func st >>= fun st1 => visitExprs args st1) := by
  rw [visitExpr.eq_def]

@[simp] theorem visitExpr_constant_def (ln : Nat) (st : St) :
    visitExpr (.constant ln) st = Except.ok st := by
  rw [visitExpr.eq_def]

@[simp] theorem visitExpr_binOp_def (ln : Nat) (l r : Expr) (st : St) :
    visitExpr (.binOp ln l r) st =
      (visitExpr l st >>= fun st1 => visitExpr r st1) := by
  rw [visitExpr.eq_def]

@[simp] theorem visitExpr_tupleE_def (ln : Nat) (elts : List Expr) (ctx : Ctx) (st : St) :
    visitExpr (.tupleE ln elts ctx) st = visitExprs elts st := by
  rw [visitExpr.eq_def]

@[simp] theorem visitExpr_listE_def (ln : Nat) (elts : List Expr) (ctx : Ctx) (st : St) :
    visitExpr (.listE ln elts ctx) st = visitExprs elts st := by
  rw [visitExpr.eq_def]

@[simp] theorem visitExpr_starred_def (ln : Nat) (v : Expr) (ctx : Ctx) (st : St) :
    visitExpr (.starred ln v ctx) st = visitExpr v st := by
  rw [visitExpr.eq_def]

@[simp] theorem visitExpr_namedExpr_def (ln : Nat) (target value : Expr) (st : St) :
    visitExpr (.namedExpr ln target value) st =
      (visitExpr target (bindWalrusTarget target st) >>= fun st1 =>
        visitExpr value st1) := by
  rw [visitExpr.eq_def]

@[simp] theorem visitExpr_lambdaE_def (ln : Nat) (args : Args) (body : Expr) (st : St) :
    visitExpr (.lambdaE ln args body) st =
      (visitExpr body (pushScope args.args st) >>= fun st1 =>
        Except.ok (popScope st1)) := by
  rw [visitExpr.eq_def]

@[simp] theorem visitExpr_listComp_def (ln : Nat) (elt : Expr) (gens : List Comp) (st : St) :
    visitExpr (.listComp ln elt gens) st =
      (visitExpr elt (pushScope (_extract_comprehension_vars gens) st) >>= fun st1 =>
        visitCompIfs gens st1 >>= fun st2 => Except.ok (popScope st2)) := by
  rw [visitExpr.eq_def]

@[simp] theorem visitExpr_setComp_def (ln : Nat) (elt : Expr) (gens : List Comp) (st : St) :
    visitExpr (.setComp ln elt gens) st =
      (visitExpr elt (pushScope (_extract_comprehension_vars gens) st) >>= fun st1 =>
        visitCompIfs gens st1 >>= fun st2 => Except.ok (popScope st2)) := by
  rw [visitExpr.eq_def]

@[simp] theorem visitExpr_dictComp_def (ln : Nat) (k v : Expr) (gens : List Comp) (st : St) :
    visitExpr (.dictComp ln k v gens) st =
      (visitExpr k (pushScope (_extract_comprehension_vars gens) st) >>= fun st1 =>
        visitExpr v st1 >>= fun st2 =>
        visitCompIfs gens st2 >>= fun st3 => Except.ok (popScope st3)) := by
  rw [visitExpr.eq_def]

@[simp] theorem visitExprs_nil_def (st : St) : visitExprs [] st = Except.ok st := by
  rw [visitExprs.eq_def]

@[simp] theorem visitExprs_cons_def (e : Expr) (rest : List Expr) (st : St) :
    visitExprs (e :: rest) st =
      (visitExpr e st >>= fun st1 => visitExprs rest st1) := by
  rw [visitExprs.eq_def]

@[simp] theorem visitOptExpr_none_def (st : St) : visitOptExpr none st = Except.ok st := by
  rw [visitOptExpr.eq_def]

@[simp] theorem visitOptExpr_some_def (e : Expr) (st : St) :
    visitOptExpr (some e) st = visitExpr e st := by
  rw [visitOptExpr.eq_def]

@[simp] theorem visitCompIfs_nil_def (st : St) : visitCompIfs [] st = Except.ok st := by
  rw [visitCompIfs.eq_def]

@[simp] theorem visitCompIfs_cons_def (target iter : Expr) (ifs : List Expr)
    (rest : List Comp) (st : St) :
    visitCompIfs (.mk target iter ifs :: rest) st =
      (visitExprs ifs st >>= fun st1 => visitCompIfs rest st1) := by
  rw [visitCompIfs.eq_def]

@[simp] theorem visitStmt_assign_def (ln : Nat) (targets : List Expr) (value : Expr) (st : St) :
    visitStmt (.assign ln targets value) st =
      (visitExprs targets (bindVars (extractAssignVarsList targets) st) >>= fun st1 =>
        visitExpr value st1) := by
  rw [visitStmt.eq_def]

@[simp] theorem visitStmt_annAssign_def (ln : Nat) (target ann : Expr)
    (value : Option Expr) (st : St) :
    visitStmt (.annAssign ln target ann value) st =
      Except.ok (bindVars (_extract_assign_vars target) st) := by
  rw [visitStmt.eq_def]

@[simp] theorem visitStmt_augAssign_def (ln : Nat) (target value : Expr) (st : St) :
    visitStmt (.augAssign ln target value) st =
      (checkVars ln (_extract_assign_vars target) st >>= fun st1 =>
        visitExpr target st1 >>= fun st2 => visitExpr value st2) := by
  rw [visitStmt.eq_def]

@[simp] theorem visitStmt_exprStmt_def (ln : Nat) (value : Expr) (st : St) :
    visitStmt (.exprStmt ln value) st = visitExpr value st := by
  rw [visitStmt.eq_def]

@[simp] theorem visitStmt_ret_def (ln : Nat) (value : Option Expr) (st : St) :
    visitStmt (.ret ln value) st = visitOptExpr value st := by
  rw [visitStmt.eq_def]

@[simp] theorem visitStmt_passStmt_def (ln : Nat) (st : St) :
    visitStmt (.passStmt ln) st = Except.ok st := by
  rw [visitStmt.eq_def]

@[simp] theorem visitStmt_functionDef_def (ln : Nat) (name : String) (args : Args)
    (body : List Stmt) (decoratorList : List Expr) (st : St) :
    visitStmt (.functionDef ln name args body decoratorList) st =
      (if _decorated_to_skip_checking decoratorList then Except.ok st
       else
        visitStmts body
            (pushScope (args.args ++ args.vararg.toList ++ args.kwarg.toList
              ++ args.kwonlyargs) (bindVar name st)) >>= fun st1 =>
          visitExprs decoratorList st1 >>= fun st2 =>
          Except.ok (popScope { st2 with lastFuncScope := st2.scopes.headD ∅ })) := by
  rw [visitStmt.eq_def]

@[simp] theorem visitStmt_forStmt_def (ln : Nat) (target iter : Expr)
    (body orelse : List Stmt) (st : St) :
    visitStmt (.forStmt ln target iter body orelse) st =
      (checkLoopReuse (exprLine target) (_extract_assign_vars target) st >>= fun st1 =>
        visitExpr target
            (pushScope (_extract_assign_vars target)
              { st1 with forLoopVars :=
                  st1.forLoopVars ∪ varsOfList (_extract_assign_vars target) }) >>=
          fun st2 =>
        visitExpr iter st2 >>= fun st3 =>
        visitStmts body st3 >>= fun st4 =>
        visitStmts orelse st4 >>= fun st5 =>
        Except.ok (removeLoopVars (_extract_assign_vars target) (popScope st5))) := by
  rw [visitStmt.eq_def]

@[simp] theorem visitStmt_whileStmt_def (ln : Nat) (test : Expr)
    (body orelse : List Stmt) (st : St) :
    visitStmt (.whileStmt ln test body orelse) st =
      (visitExpr test (pushScope (walrusTargets test) st) >>= fun st1 =>
        visitStmts body st1 >>= fun st2 =>
        visitStmts orelse st2 >>= fun st3 =>
        Except.ok (popScope st3)) := by
  rw [visitStmt.eq_def]

@[simp] theorem visitStmt_ifStmt_def (ln : Nat) (test : Expr)
    (body orelse : List Stmt) (st : St) :
    visitStmt (.ifStmt ln test body orelse) st =
      (visitStmts body (pushScope (walrusTargets test) st) >>= fun st1 =>
        visitIfChain (walrusTargets test) [st1.scopes.headD ∅] orelse
            (popScope st1) >>= fun out =>
        if out.2.1 then Except.ok (updateTop (interList out.1) out.2.2)
        else Except.ok out.2.2) := by
  rw [visitStmt.eq_def]

@[simp] theorem visitStmt_tryStmt_def (ln : Nat) (body : List Stmt)
    (handlers : List Handler) (orelse finalbody : List Stmt) (st : St) :
    visitStmt (.tryStmt ln body handlers orelse finalbody) st =
      (visitHandlers handlers st >>= fun st1 =>
        visitStmts body st1 >>= fun st2 =>
        visitStmts orelse st2 >>= fun st3 =>
        visitStmts finalbody st3) := by
  rw [visitStmt.eq_def]

@[simp] theorem visitStmt_withStmt_def (ln : Nat) (items : List WithItem)
    (body : List Stmt) (st : St) :
    visitStmt (.withStmt ln items body) st =
      (if isBlockScopeWith items then
        visitWithItems items (pushScope (withNewVars items) st) >>= fun st1 =>
          visitStmts body st1 >>= fun st2 => Except.ok (popScope st2)
       else
        visitWithItems items (updateTop (varsOfList (withNewVars items)) st) >>=
          fun st1 => visitStmts body st1) := by
  rw [visitStmt.eq_def]

@[simp] theorem visitStmt_importStmt_def (ln : Nat) (names : List ImportAlias) (st : St) :
    visitStmt (.importStmt ln names) st =
      Except.ok (updateTop (varsOfList (importVisitImport names)) st) := by
  rw [visitStmt.eq_def]

@[simp] theorem visitStmt_importFrom_def (ln : Nat) (module : String)
    (names : List ImportAlias) (st : St) :
    visitStmt (.importFrom ln module names) st =
      Except.ok (updateTop (varsOfList (importVisitFrom module names)) st) := by
  rw [visitStmt.eq_def]

@[simp] theorem visitStmts_nil_def (st : St) : visitStmts [] st = Except.ok st := by
  rw [visitStmts.eq_def]

@[simp] theorem visitStmts_cons_def (s : Stmt) (rest : List Stmt) (st : St) :
    visitStmts (s :: rest) st =
      (visitStmt s st >>= fun st1 => visitStmts rest st1) := by
  rw [visitStmts.eq_def]

@[simp] theorem visitHandler1_def (ln : Nat) (type : Option Expr)
    (name : Option String) (hbody : List Stmt) (st : St) :
    visitHandler1 (.mk ln type name hbody) st =
      (visitOptExpr type
          (pushScope (match name with | some n => [n] | none => []) st) >>= fun st1 =>
        visitStmts hbody st1 >>= fun st2 => Except.ok (popScope st2)) := by
  rw [visitHandler1.eq_def]

@[simp] theorem visitHandlers_nil_def (st : St) : visitHandlers [] st = Except.ok st := by
  rw [visitHandlers.eq_def]

@[simp] theorem visitHandlers_cons_def (hd : Handler) (rest : List Handler) (st : St) :
    visitHandlers (hd :: rest) st =
      (visitHandler1 hd st >>= fun st1 => visitHandlers rest st1) := by
  rw [visitHandlers.eq_def]

@[simp] theorem visitWithItems_nil_def (st : St) : visitWithItems [] st = Except.ok st := by
  rw [visitWithItems.eq_def]

@[simp] theorem visitWithItems_cons_def (ce : Expr) (ov : Option Expr)
    (rest : List WithItem) (st : St) :
    visitWithItems (.mk ce ov :: rest) st =
      (visitExpr ce st >>= fun st1 =>
        visitOptExpr ov st1 >>= fun st2 => visitWithItems rest st2) := by
  rw [visitWithItems.eq_def]

@[simp] theorem visitIfChain_nil_def (walrus : List String) (inherited : List Vars)
    (st : St) :
    visitIfChain walrus inherited [] st = Except.ok (inherited, false, st) := by
  rw [visitIfChain.eq_def]

@[simp] theorem visitIfChain_elif_def (walrus : List String) (inherited : List Vars)
    (ln2 : Nat) (test2 : Expr) (body2 orelse2 : List Stmt) (rest : List Stmt) (st : St) :
    visitIfChain walrus inherited (.ifStmt ln2 test2 body2 orelse2 :: rest) st =
      (visitStmts body2
          (pushScope (walrus ++ walrusTargets test2) st) >>= fun st1 =>
        visitIfChain (walrus ++ walrusTargets test2)
          (inherited ++ [st1.scopes.headD ∅]) orelse2 (popScope st1)) := by
  rw [visitIfChain.eq_def]

theorem visitIfChain_else_def (walrus : List String) (inherited : List Vars)
    (s : Stmt) (rest : List Stmt) (st : St)
    (hne : ∀ a b c d, s ≠ .ifStmt a b c d) :
    visitIfChain walrus inherited (s :: rest) st =
      (visitStmts (s :: rest) (pushScope walrus st) >>= fun st1 =>
        Except.ok (inherited ++ [st1.scopes.headD ∅], true, popScope st1)) := by
  rw [visitIfChain.eq_def]
  split
  · rename_i heq
    exact absurd heq (List.cons_ne_nil s rest)
  · rename_i a b c d e heq
    injection heq with h1 h2
    exact absurd h1 (hne a b c d)
  · rfl

theorem chainHasElse_nil_def : chainHasElse [] = false := by rw [chainHasElse.eq_def]

theorem chainHasElse_elif_def (ln : Nat) (test : Expr) (body orelse2 : List Stmt)
    (rest : List Stmt) :
    chainHasElse (.ifStmt ln test body orelse2 :: rest) = chainHasElse orelse2 := by
  rw [chainHasElse.eq_def]

theorem chainHasElse_else_def (s : Stmt) (rest : List Stmt)
    (hne : ∀ a b c d, s ≠ .ifStmt a b c d) :
    chainHasElse (s :: rest) = true := by
  rw [chainHasElse.eq_def]
  split
  · rename_i heq
    exact absurd heq (List.cons_ne_nil s rest)
  · rename_i a b c d e heq
    injection heq with h1 h2
    exact absurd h1 (hne a b c d)
  · rfl


/-!
## Invariants of a single visit

`StOk st st'` records what any successful visit step does to the checker
state: the scope stack keeps its shape (same depth, same outer scopes) and
the top scope only grows; the construction-time fields never change; the
error list is append-only, and in strict mode a successful visit appends
nothing (the first diagnostic raises instead).
-/

/-- State evolution along any successfully visited construct. -/
structure StOk (st st' : St) : Prop where
  tail_eq : st'.scopes.tail = st.scopes.tail
  length_eq : st'.scopes.length = st.scopes.length
  head_mono : st.scopes.headD ∅ ⊆ st'.scopes.headD ∅
  filename_eq : st'.filename = st.filename
  funcName_eq : st'.funcName = st.funcName
  attrCheck_eq : st'.attrCheck = st.attrCheck
  errors_append : ∃ d, st'.errors = st.errors ++ d
  strict_silent : st.filename = none → st'.errors = st.errors

theorem StOk.refl (st : St) : StOk st st :=
  ⟨rfl, rfl, le_refl _, rfl, rfl, rfl, ⟨[], by simp⟩, fun _ => rfl⟩

theorem StOk.trans {a b c : St} (h1 : StOk a b) (h2 : StOk b c) : StOk a c := by
  obtain ⟨t1, l1, m1, f1, n1, a1, ⟨d1, e1⟩, s1⟩ := h1
  obtain ⟨t2, l2, m2, f2, n2, a2, ⟨d2, e2⟩, s2⟩ := h2
  refine ⟨t2.trans t1, l2.trans l1, m1.trans m2, f2.trans f1, n2.trans n1, a2.trans a1,
    ⟨d1 ++ d2, by rw [e2, e1, List.append_assoc]⟩, fun h => ?_⟩
  rw [s2 (f1.trans h), s1 h]

/-- A state differing only in fields `StOk` does not track. -/
theorem StOk.of_untracked {st st' : St} (hs : st'.scopes = st.scopes)
    (hf : st'.filename = st.filename) (hn : st'.funcName = st.funcName)
    (ha : st'.attrCheck = st.attrCheck) (he : st'.errors = st.errors) : StOk st st' :=
  ⟨by rw [hs], by rw [hs], by rw [hs], hf, hn, ha, ⟨[], by simp [he]⟩, fun _ => he⟩

/-- Bind-inversion for the `Except` monad. -/
theorem bindOk {α β : Type} {x : Except Diag α} {f : α → Except Diag β} {b : β} :
    x >>= f = Except.ok b ↔ ∃ a, x = Except.ok a ∧ f a = Except.ok b := by
  cases x with
  | error d => simp [Bind.bind, Except.bind]
  | ok a => simp [Bind.bind, Except.bind]

theorem updTop_tail (f : Vars → Vars) (l : List Vars) : (updTop f l).tail = l.tail := by
  cases l <;> simp [updTop]

theorem updTop_length (f : Vars → Vars) (l : List Vars) :
    (updTop f l).length = l.length := by
  cases l <;> simp [updTop]

theorem updTop_headD (f : Vars → Vars) (l : List Vars) (hne : l ≠ []) :
    (updTop f l).headD ∅ = f (l.headD ∅) := by
  cases l with
  | nil => exact absurd rfl hne
  | cons h t => simp [updTop]

theorem stOk_bindVar (v : String) (st : St) : StOk st (bindVar v st) := by
  refine ⟨updTop_tail _ _, updTop_length _ _, ?_, rfl, rfl, rfl, ⟨[], by simp [bindVar]⟩,
    fun _ => rfl⟩
  cases hl : st.scopes with
  | nil => simp [bindVar, hl, updTop]
  | cons h t =>
      simp only [bindVar, hl, updTop, List.headD_cons]
      exact Finset.subset_insert v h

theorem stOk_bindVars (vs : List String) (st : St) : StOk st (bindVars vs st) := by
  induction vs generalizing st with
  | nil => exact StOk.refl st
  | cons v rest ih =>
      have h1 : bindVars (v :: rest) st = bindVars rest (bindVar v st) := by
        simp [bindVars, List.foldl_cons]
      rw [h1]
      exact (stOk_bindVar v st).trans (ih (bindVar v st))

theorem stOk_updateTop (vs : Vars) (st : St) : StOk st (updateTop vs st) := by
  refine ⟨updTop_tail _ _, updTop_length _ _, ?_, rfl, rfl, rfl, ⟨[], by simp [updateTop]⟩,
    fun _ => rfl⟩
  cases hl : st.scopes with
  | nil => simp [updateTop, hl, updTop]
  | cons h t =>
      simp only [updateTop, hl, updTop, List.headD_cons]
      exact Finset.subset_union_left

/-- `_error` can only succeed in batch mode, and then only appends. -/
theorem error_inv {lineno : Nat} {k : DiagKind} {st st' : St}
    (h : _error lineno k st = Except.ok st') : StOk st st' := by
  unfold _error at h
  split at h
  case isTrue => cases h
  case isFalse hf =>
      cases h
      exact ⟨rfl, rfl, le_refl _, rfl, rfl, rfl, ⟨_, rfl⟩, fun hn => absurd hn hf⟩

/-- `_error` in batch mode never raises. -/
theorem error_total {lineno : Nat} {k : DiagKind} {st : St} (hb : st.filename ≠ none) :
    _error lineno k st =
      Except.ok { st with errors := st.errors ++ [⟨lineno, st.locName, k⟩] } := by
  unfold _error
  split
  case isTrue hn => exact absurd hn hb
  case isFalse => rfl

/-- `_error` in strict mode raises the diagnostic it just recorded. -/
theorem error_strict {lineno : Nat} {k : DiagKind} {st : St} (hs : st.filename = none) :
    _error lineno k st = Except.error ⟨lineno, st.locName, k⟩ := by
  unfold _error
  split
  case isTrue => rfl
  case isFalse hn => exact absurd hs hn

theorem check_in_scope_inv {lineno : Nat} {v : String} {st st' : St}
    (h : _check_in_scope lineno v st = Except.ok st') : StOk st st' := by
  unfold _check_in_scope at h
  split at h
  case isTrue => cases h; exact StOk.refl st
  case isFalse =>
    split at h
    case isTrue => cases h; exact StOk.refl st
    case isFalse => exact error_inv h

theorem check_in_scope_total {lineno : Nat} {v : String} {st : St}
    (hb : st.filename ≠ none) : ∃ st', _check_in_scope lineno v st = Except.ok st' := by
  unfold _check_in_scope
  split
  case isTrue => exact ⟨st, rfl⟩
  case isFalse =>
    split
    case isTrue => exact ⟨st, rfl⟩
    case isFalse => exact ⟨_, error_total hb⟩

theorem checkVars_inv {lineno : Nat} {vs : List String} {st st' : St}
    (h : checkVars lineno vs st = Except.ok st') : StOk st st' := by
  induction vs generalizing st with
  | nil => unfold checkVars at h; cases h; exact StOk.refl _
  | cons v rest ih =>
      unfold checkVars at h
      rw [bindOk] at h
      obtain ⟨st1, h1, h2⟩ := h
      exact (check_in_scope_inv h1).trans (ih h2)

theorem checkVars_total {lineno : Nat} {vs : List String} {st : St}
    (hb : st.filename ≠ none) : ∃ st', checkVars lineno vs st = Except.ok st' := by
  induction vs generalizing st with
  | nil => exact ⟨st, rfl⟩
  | cons v rest ih =>
      obtain ⟨st1, h1⟩ := @check_in_scope_total lineno v _ hb
      have hb1 : st1.filename ≠ none := by
        rw [(check_in_scope_inv h1).filename_eq]; exact hb
      obtain ⟨st2, h2⟩ := ih hb1
      exact ⟨st2, by unfold checkVars; rw [bindOk]; exact ⟨st1, h1, h2⟩⟩

theorem checkLoopReuse_inv {lineno : Nat} {vs : List String} {st st' : St}
    (h : checkLoopReuse lineno vs st = Except.ok st') : StOk st st' := by
  induction vs generalizing st with
  | nil => unfold checkLoopReuse at h; cases h; exact StOk.refl _
  | cons v rest ih =>
      unfold checkLoopReuse at h
      split at h
      case isTrue => exact ih h
      case isFalse =>
        split at h
        case isTrue =>
          rw [bindOk] at h
          obtain ⟨st1, h1, h2⟩ := h
          exact (error_inv h1).trans (ih h2)
        case isFalse => exact ih h

theorem checkLoopReuse_total {lineno : Nat} {vs : List String} {st : St}
    (hb : st.filename ≠ none) : ∃ st', checkLoopReuse lineno vs st = Except.ok st' := by
  induction vs generalizing st with
  | nil => exact ⟨st, rfl⟩
  | cons v rest ih =>
      unfold checkLoopReuse
      split
      case isTrue => exact ih hb
      case isFalse =>
        split
        case isTrue =>
          have h1 := @error_total lineno (DiagKind.loopVarReuse v) st hb
          have hb1 : ({ st with errors := st.errors ++ [⟨lineno, st.locName, .loopVarReuse v⟩] } : St).filename ≠ none := hb
          obtain ⟨st2, h2⟩ := ih hb1
          exact ⟨st2, by rw [bindOk]; exact ⟨_, h1, h2⟩⟩
        case isFalse => exact ih hb

/-- Visiting inside `_scope`: if the pushed-scope visit succeeds, popping
restores the original stack exactly, and the step is a valid `StOk` step. -/
theorem stOk_scoped {vs : List String} {st st1 : St} (h : StOk (pushScope vs st) st1) :
    (popScope st1).scopes = st.scopes ∧ StOk st (popScope st1) := by
  have htail : st1.scopes.tail = st.scopes := h.tail_eq
  have hpop : (popScope st1).scopes = st.scopes := htail
  refine ⟨hpop, ⟨by rw [hpop], by rw [hpop], by rw [hpop], ?_, ?_, ?_, ?_, ?_⟩⟩
  · exact h.filename_eq
  · exact h.funcName_eq
  · exact h.attrCheck_eq
  · exact h.errors_append
  · exact h.strict_silent

theorem stOk_set_forLoopVars (st : St) (x : Vars) :
    StOk st { st with forLoopVars := x } :=
  StOk.of_untracked rfl rfl rfl rfl rfl

theorem stOk_removeLoopVars (st : St) (ite : List String) :
    StOk st (removeLoopVars ite st) :=
  StOk.of_untracked rfl rfl rfl rfl rfl

theorem stOk_set_lastFuncScope (st : St) (x : Vars) :
    StOk st { st with lastFuncScope := x } :=
  StOk.of_untracked rfl rfl rfl rfl rfl

theorem stOk_checkSelfAttribute {lineno : Nat} {value : Expr} {attr : String}
    {st st' : St} (h : checkSelfAttribute lineno value attr st = Except.ok st') :
    StOk st st' := by
  unfold checkSelfAttribute at h
  split at h
  case isTrue =>
    split at h
    case h_1 =>
      split at h
      case isTrue => exact check_in_scope_inv h
      case isFalse => cases h; exact StOk.refl _
    case h_2 => cases h; exact StOk.refl _
  case isFalse => cases h; exact StOk.refl _

theorem checkSelfAttribute_total {lineno : Nat} {value : Expr} {attr : String}
    {st : St} (hb : st.filename ≠ none) :
    ∃ st', checkSelfAttribute lineno value attr st = Except.ok st' := by
  unfold checkSelfAttribute
  split
  case isTrue =>
    split
    case h_1 =>
      split
      case isTrue => exact check_in_scope_total hb
      case isFalse => exact ⟨st, rfl⟩
    case h_2 => exact ⟨st, rfl⟩
  case isFalse => exact ⟨st, rfl⟩

theorem stOk_bindWalrusTarget (target : Expr) (st : St) :
    StOk st (bindWalrusTarget target st) := by
  unfold bindWalrusTarget
  split
  case h_1 => exact stOk_bindVar _ st
  case h_2 => exact StOk.refl st

mutual

/-- Any successfully visited expression is a valid `StOk` state step. -/
theorem visitExpr_inv (e : Expr) : ∀ {st st' : St},
    visitExpr e st = Except.ok st' → StOk st st' := by
  cases e with
  | name ln id ctx =>
      intro st st' h
      rw [visitExpr_name_def] at h
      cases ctx with
      | load => exact check_in_scope_inv h
      | store => cases h; exact StOk.refl _
      | del => cases h; exact StOk.refl _
  | attributeE ln value attr ctx =>
      intro st st' h
      rw [visitExpr_attributeE_def] at h
      rw [bindOk] at h
      obtain ⟨st1, h1, h2⟩ := h
      exact (stOk_checkSelfAttribute h1).trans (visitExpr_inv value h2)
  | call ln func args =>
      intro st st' h
      rw [visitExpr_call_def] at h
      rw [bindOk] at h
      obtain ⟨st1, h1, h2⟩ := h
      exact (visitExpr_inv func h1).trans (visitExprs_inv args h2)
  | constant ln =>
      intro st st' h
      rw [visitExpr_constant_def] at h; cases h; exact StOk.refl _
  | binOp ln l r =>
      intro st st' h
      rw [visitExpr_binOp_def] at h
      rw [bindOk] at h
      obtain ⟨st1, h1, h2⟩ := h
      exact (visitExpr_inv l h1).trans (visitExpr_inv r h2)
  | tupleE ln elts ctx =>
      intro st st' h
      rw [visitExpr_tupleE_def] at h
      exact visitExprs_inv elts h
  | listE ln elts ctx =>
      intro st st' h
      rw [visitExpr_listE_def] at h
      exact visitExprs_inv elts h
  | starred ln v ctx =>
      intro st st' h
      rw [visitExpr_starred_def] at h
      exact visitExpr_inv v h
  | namedExpr ln target value =>
      intro st st' h
      rw [visitExpr_namedExpr_def] at h
      rw [bindOk] at h
      obtain ⟨st1, h1, h2⟩ := h
      exact ((stOk_bindWalrusTarget target st).trans (visitExpr_inv target h1)).trans
        (visitExpr_inv value h2)
  | lambdaE ln args body =>
      intro st st' h
      rw [visitExpr_lambdaE_def] at h
      rw [bindOk] at h
      obtain ⟨st1, h1, h2⟩ := h
      cases h2
      exact (stOk_scoped (visitExpr_inv body h1)).2
  | listComp ln elt gens =>
      intro st st' h
      rw [visitExpr_listComp_def] at h
      rw [bindOk] at h
      obtain ⟨st1, h1, h⟩ := h
      rw [bindOk] at h
      obtain ⟨st2, h2, h3⟩ := h
      cases h3
      exact (stOk_scoped ((visitExpr_inv elt h1).trans (visitCompIfs_inv gens h2))).2
  | setComp ln elt gens =>
      intro st st' h
      rw [visitExpr_setComp_def] at h
      rw [bindOk] at h
      obtain ⟨st1, h1, h⟩ := h
      rw [bindOk] at h
      obtain ⟨st2, h2, h3⟩ := h
      cases h3
      exact (stOk_scoped ((visitExpr_inv elt h1).trans (visitCompIfs_inv gens h2))).2
  | dictComp ln k v gens =>
      intro st st' h
      rw [visitExpr_dictComp_def] at h
      rw [bindOk] at h
      obtain ⟨st1, h1, h⟩ := h
      rw [bindOk] at h
      obtain ⟨st2, h2, h⟩ := h
      rw [bindOk] at h
      obtain ⟨st3, h3, h4⟩ := h
      cases h4
      exact (stOk_scoped (((visitExpr_inv k h1).trans (visitExpr_inv v h2)).trans
        (visitCompIfs_inv gens h3))).2
termination_by (sizeOf e, 0)

/-- `StOk` for a visited expression list. -/
theorem visitExprs_inv (l : List Expr) : ∀ {st st' : St},
    visitExprs l st = Except.ok st' → StOk st st' := by
  cases l with
  | nil =>
      intro st st' h
      rw [visitExprs_nil_def] at h; cases h; exact StOk.refl _
  | cons e rest =>
      intro st st' h
      rw [visitExprs_cons_def] at h
      rw [bindOk] at h
      obtain ⟨st1, h1, h2⟩ := h
      exact (visitExpr_inv e h1).trans (visitExprs_inv rest h2)
termination_by (sizeOf l, 0)

/-- `StOk` for a visited optional expression. -/
theorem visitOptExpr_inv (o : Option Expr) : ∀ {st st' : St},
    visitOptExpr o st = Except.ok st' → StOk st st' := by
  cases o with
  | none =>
      intro st st' h
      rw [visitOptExpr_none_def] at h; cases h; exact StOk.refl _
  | some e =>
      intro st st' h
      rw [visitOptExpr_some_def] at h
      exact visitExpr_inv e h

/-- `StOk` for the comprehension filter-condition loop. -/
theorem visitCompIfs_inv (gens : List Comp) : ∀ {st st' : St},
    visitCompIfs gens st = Except.ok st' → StOk st st' := by
  cases gens with
  | nil =>
      intro st st' h
      rw [visitCompIfs_nil_def] at h; cases h; exact StOk.refl _
  | cons g rest =>
      intro st st' h
      cases g with
      | mk target iter ifs =>
          rw [visitCompIfs_cons_def] at h
          rw [bindOk] at h
          obtain ⟨st1, h1, h2⟩ := h
          exact (visitExprs_inv ifs h1).trans (visitCompIfs_inv rest h2)
termination_by (sizeOf gens, 0)

/-- Any successfully visited statement is a valid `StOk` state step. -/
theorem visitStmt_inv (s : Stmt) : ∀ {st st' : St},
    visitStmt s st = Except.ok st' → StOk st st' := by
  cases s with
  | assign ln targets value =>
      intro st st' h
      rw [visitStmt_assign_def] at h
      rw [bindOk] at h
      obtain ⟨st1, h1, h2⟩ := h
      exact ((stOk_bindVars _ st).trans (visitExprs_inv targets h1)).trans
        (visitExpr_inv value h2)
  | annAssign ln target ann value =>
      intro st st' h
      rw [visitStmt_annAssign_def] at h
      cases h
      exact stOk_bindVars _ st
  | augAssign ln target value =>
      intro st st' h
      rw [visitStmt_augAssign_def] at h
      rw [bindOk] at h
      obtain ⟨st1, h1, h⟩ := h
      rw [bindOk] at h
      obtain ⟨st2, h2, h3⟩ := h
      exact ((checkVars_inv h1).trans (visitExpr_inv target h2)).trans
        (visitExpr_inv value h3)
  | exprStmt ln value =>
      intro st st' h
      rw [visitStmt_exprStmt_def] at h
      exact visitExpr_inv value h
  | ret ln value =>
      intro st st' h
      rw [visitStmt_ret_def] at h
      exact visitOptExpr_inv value h
  | passStmt ln =>
      intro st st' h
      rw [visitStmt_passStmt_def] at h; cases h; exact StOk.refl _
  | functionDef ln name args body decoratorList =>
      intro st st' h
      rw [visitStmt_functionDef_def] at h
      split at h
      case isTrue => cases h; exact StOk.refl _
      case isFalse =>
          rw [bindOk] at h
          obtain ⟨st1, h1, h⟩ := h
          rw [bindOk] at h
          obtain ⟨st2, h2, h3⟩ := h
          cases h3
          have hbody : StOk (pushScope _ (bindVar name st))
              { st2 with lastFuncScope := st2.scopes.headD ∅ } :=
            ((visitStmts_inv body h1).trans (visitExprs_inv decoratorList h2)).trans
              (stOk_set_lastFuncScope st2 _)
          exact (stOk_bindVar name st).trans (stOk_scoped hbody).2
  | forStmt ln target iter body orelse =>
      intro st st' h
      rw [visitStmt_forStmt_def] at h
      rw [bindOk] at h
      obtain ⟨st1, h1, h⟩ := h
      rw [bindOk] at h
      obtain ⟨st2, h2, h⟩ := h
      rw [bindOk] at h
      obtain ⟨st3, h3, h⟩ := h
      rw [bindOk] at h
      obtain ⟨st4, h4, h⟩ := h
      rw [bindOk] at h
      obtain ⟨st5, h5, h6⟩ := h
      cases h6
      have hin : StOk (pushScope _ { st1 with forLoopVars := _ }) st5 :=
        (((visitExpr_inv target h2).trans (visitExpr_inv iter h3)).trans
          (visitStmts_inv body h4)).trans (visitStmts_inv orelse h5)
      exact (((checkLoopReuse_inv h1).trans
        (stOk_set_forLoopVars st1 _)).trans (stOk_scoped hin).2).trans
        (stOk_removeLoopVars _ _)
  | whileStmt ln test body orelse =>
      intro st st' h
      rw [visitStmt_whileStmt_def] at h
      rw [bindOk] at h
      obtain ⟨st1, h1, h⟩ := h
      rw [bindOk] at h
      obtain ⟨st2, h2, h⟩ := h
      rw [bindOk] at h
      obtain ⟨st3, h3, h4⟩ := h
      cases h4
      exact (stOk_scoped (((visitExpr_inv test h1).trans
        (visitStmts_inv body h2)).trans (visitStmts_inv orelse h3))).2
  | ifStmt ln test body orelse =>
      intro st st' h
      rw [visitStmt_ifStmt_def] at h
      rw [bindOk] at h
      obtain ⟨st1, h1, h⟩ := h
      rw [bindOk] at h
      obtain ⟨out, h2, h3⟩ := h
      have hpop := stOk_scoped (visitStmts_inv body h1)
      have hchain := visitIfChain_inv orelse h2
      have base : StOk st out.2.2 := hpop.2.trans hchain.1
      split at h3
      case isTrue => cases h3; exact base.trans (stOk_updateTop _ _)
      case isFalse => cases h3; exact base
  | tryStmt ln body handlers orelse finalbody =>
      intro st st' h
      rw [visitStmt_tryStmt_def] at h
      rw [bindOk] at h
      obtain ⟨st1, h1, h⟩ := h
      rw [bindOk] at h
      obtain ⟨st2, h2, h⟩ := h
      rw [bindOk] at h
      obtain ⟨st3, h3, h4⟩ := h
      exact (((visitHandlers_inv handlers h1).1.trans
        (visitStmts_inv body h2)).trans (visitStmts_inv orelse h3)).trans
        (visitStmts_inv finalbody h4)
  | withStmt ln items body =>
      intro st st' h
      rw [visitStmt_withStmt_def] at h
      split at h
      case isTrue =>
          rw [bindOk] at h
          obtain ⟨st1, h1, h⟩ := h
          rw [bindOk] at h
          obtain ⟨st2, h2, h3⟩ := h
          cases h3
          exact (stOk_scoped ((visitWithItems_inv items h1).trans
            (visitStmts_inv body h2))).2
      case isFalse =>
          rw [bindOk] at h
          obtain ⟨st1, h1, h2⟩ := h
          exact ((stOk_updateTop _ st).trans
            (visitWithItems_inv items h1)).trans (visitStmts_inv body h2)
  | importStmt ln names =>
      intro st st' h
      rw [visitStmt_importStmt_def] at h
      cases h
      exact stOk_updateTop _ st
  | importFrom ln module names =>
      intro st st' h
      rw [visitStmt_importFrom_def] at h
      cases h
      exact stOk_updateTop _ st
termination_by (sizeOf s, 0)

/-- `StOk` for a visited statement list. -/
theorem visitStmts_inv (l : List Stmt) : ∀ {st st' : St},
    visitStmts l st = Except.ok st' → StOk st st' := by
  cases l with
  | nil =>
      intro st st' h
      rw [visitStmts_nil_def] at h; cases h; exact StOk.refl _
  | cons s rest =>
      intro st st' h
      rw [visitStmts_cons_def] at h
      rw [bindOk] at h
      obtain ⟨st1, h1, h2⟩ := h
      exact (visitStmt_inv s h1).trans (visitStmts_inv rest h2)
termination_by (sizeOf l, 0)

/-- A successfully visited `except` handler restores the scope stack
exactly: nothing it binds leaks into any surrounding scope. -/
theorem visitHandler1_inv (hd : Handler) : ∀ {st st' : St},
    visitHandler1 hd st = Except.ok st' → StOk st st' ∧ st'.scopes = st.scopes := by
  cases hd with
  | mk ln type name hbody =>
      intro st st' h
      rw [visitHandler1_def] at h
      rw [bindOk] at h
      obtain ⟨st1, h1, h⟩ := h
      rw [bindOk] at h
      obtain ⟨st2, h2, h3⟩ := h
      cases h3
      have := stOk_scoped ((visitOptExpr_inv type h1).trans (visitStmts_inv hbody h2))
      exact ⟨this.2, this.1⟩
termination_by (sizeOf hd, 0)

/-- The handler loop of `visit_Try` restores the scope stack exactly. -/
theorem visitHandlers_inv (hs : List Handler) : ∀ {st st' : St},
    visitHandlers hs st = Except.ok st' → StOk st st' ∧ st'.scopes = st.scopes := by
  cases hs with
  | nil =>
      intro st st' h
      rw [visitHandlers_nil_def] at h; cases h; exact ⟨StOk.refl _, rfl⟩
  | cons hd rest =>
      intro st st' h
      rw [visitHandlers_cons_def] at h
      rw [bindOk] at h
      obtain ⟨st1, h1, h2⟩ := h
      obtain ⟨o1, s1⟩ := visitHandler1_inv hd h1
      obtain ⟨o2, s2⟩ := visitHandlers_inv rest h2
      exact ⟨o1.trans o2, s2.trans s1⟩
termination_by (sizeOf hs, 0)

/-- `StOk` for visited with-items. -/
theorem visitWithItems_inv (items : List WithItem) : ∀ {st st' : St},
    visitWithItems items st = Except.ok st' → StOk st st' := by
  cases items with
  | nil =>
      intro st st' h
      rw [visitWithItems_nil_def] at h; cases h; exact StOk.refl _
  | cons i rest =>
      intro st st' h
      cases i with
      | mk ce ov =>
          rw [visitWithItems_cons_def] at h
          rw [bindOk] at h
          obtain ⟨st1, h1, h⟩ := h
          rw [bindOk] at h
          obtain ⟨st2, h2, h3⟩ := h
          exact ((visitExpr_inv ce h1).trans (visitOptExpr_inv ov h2)).trans
            (visitWithItems_inv rest h3)
termination_by (sizeOf items, 0)

/-- The `elif`/`else` walk of `visit_If` restores the scope stack exactly,
reports whether a terminal `else` exists, and only appends retained branch
scopes. -/
theorem visitIfChain_inv (orelse : List Stmt) :
    ∀ {walrus : List String} {inherited : List Vars} {st : St}
      {out : List Vars × Bool × St},
    visitIfChain walrus inherited orelse st = Except.ok out →
      StOk st out.2.2 ∧ out.2.2.scopes = st.scopes ∧
        out.2.1 = chainHasElse orelse ∧ ∃ extra, out.1 = inherited ++ extra := by
  intro walrus inherited st out h
  rw [visitIfChain.eq_def] at h
  split at h
  case h_1 =>
      cases h
      exact ⟨StOk.refl _, rfl, by rw [chainHasElse_nil_def], ⟨[], by simp⟩⟩
  case h_2 ln2 test2 body2 orelse2 rest =>
      rw [bindOk] at h
      obtain ⟨st1, h1, h2⟩ := h
      have hpop := stOk_scoped (visitStmts_inv body2 h1)
      obtain ⟨o2, s2, he2, extra2, hx2⟩ := visitIfChain_inv orelse2 h2
      refine ⟨hpop.2.trans o2, s2.trans hpop.1, ?_, ?_⟩
      · rw [he2, chainHasElse_elif_def]
      · exact ⟨_ :: extra2, by rw [hx2, List.append_assoc]; rfl⟩
  case h_3 hne1 hne2 =>
      rw [bindOk] at h
      obtain ⟨st1, h1, h2⟩ := h
      cases h2
      have hpop := stOk_scoped (visitStmts_inv _ h1)
      refine ⟨hpop.2, hpop.1, ?_, ⟨_, rfl⟩⟩
      rw [chainHasElse.eq_def]
      split
      · exact absurd rfl hne1
      · rename_i a b c d e
        exact absurd rfl (hne2 a b c d e)
      · rfl
termination_by (sizeOf orelse, 1)

end

/-- Batch mode is preserved along any `StOk` step. -/
theorem StOk.batch {st st' : St} (h : StOk st st') (hb : st.filename ≠ none) :
    st'.filename ≠ none := by
  rw [h.filename_eq]; exact hb

mutual

/-- In batch mode every expression visit runs to completion. -/
theorem visitExpr_total (e : Expr) : ∀ {st : St}, st.filename ≠ none →
    ∃ st', visitExpr e st = Except.ok st' := by
  cases e with
  | name ln id ctx =>
      intro st hb
      cases ctx with
      | load =>
          obtain ⟨st1, h1⟩ := @check_in_scope_total ln id _ hb
          exact ⟨st1, by rw [visitExpr_name_def]; exact h1⟩
      | store => exact ⟨st, by rw [visitExpr_name_def]⟩
      | del => exact ⟨st, by rw [visitExpr_name_def]⟩
  | attributeE ln value attr ctx =>
      intro st hb
      obtain ⟨st1, h1⟩ := @checkSelfAttribute_total ln value attr _ hb
      obtain ⟨st2, h2⟩ := visitExpr_total value ((stOk_checkSelfAttribute h1).batch hb)
      exact ⟨st2, by rw [visitExpr_attributeE_def, bindOk]; exact ⟨st1, h1, h2⟩⟩
  | call ln func args =>
      intro st hb
      obtain ⟨st1, h1⟩ := visitExpr_total func hb
      obtain ⟨st2, h2⟩ := visitExprs_total args ((visitExpr_inv func h1).batch hb)
      exact ⟨st2, by rw [visitExpr_call_def, bindOk]; exact ⟨st1, h1, h2⟩⟩
  | constant ln =>
      intro st hb
      exact ⟨st, by rw [visitExpr_constant_def]⟩
  | binOp ln l r =>
      intro st hb
      obtain ⟨st1, h1⟩ := visitExpr_total l hb
      obtain ⟨st2, h2⟩ := visitExpr_total r ((visitExpr_inv l h1).batch hb)
      exact ⟨st2, by rw [visitExpr_binOp_def, bindOk]; exact ⟨st1, h1, h2⟩⟩
  | tupleE ln elts ctx =>
      intro st hb
      obtain ⟨st1, h1⟩ := visitExprs_total elts hb
      exact ⟨st1, by rw [visitExpr_tupleE_def]; exact h1⟩
  | listE ln elts ctx =>
      intro st hb
      obtain ⟨st1, h1⟩ := visitExprs_total elts hb
      exact ⟨st1, by rw [visitExpr_listE_def]; exact h1⟩
  | starred ln v ctx =>
      intro st hb
      obtain ⟨st1, h1⟩ := visitExpr_total v hb
      exact ⟨st1, by rw [visitExpr_starred_def]; exact h1⟩
  | namedExpr ln target value =>
      intro st hb
      have hb0 : (bindWalrusTarget target st).filename ≠ none :=
        (stOk_bindWalrusTarget target st).batch hb
      obtain ⟨st1, h1⟩ := visitExpr_total target hb0
      obtain ⟨st2, h2⟩ := visitExpr_total value ((visitExpr_inv target h1).batch hb0)
      exact ⟨st2, by rw [visitExpr_namedExpr_def, bindOk]; exact ⟨st1, h1, h2⟩⟩
  | lambdaE ln args body =>
      intro st hb
      obtain ⟨st1, h1⟩ := @visitExpr_total body (pushScope args.args st) hb
      exact ⟨popScope st1, by rw [visitExpr_lambdaE_def, bindOk]; exact ⟨st1, h1, rfl⟩⟩
  | listComp ln elt gens =>
      intro st hb
      obtain ⟨st1, h1⟩ := @visitExpr_total elt (pushScope (_extract_comprehension_vars gens) st) hb
      obtain ⟨st2, h2⟩ := visitCompIfs_total gens ((visitExpr_inv elt h1).batch hb)
      exact ⟨popScope st2, by
        rw [visitExpr_listComp_def, bindOk]
        exact ⟨st1, h1, by rw [bindOk]; exact ⟨st2, h2, rfl⟩⟩⟩
  | setComp ln elt gens =>
      intro st hb
      obtain ⟨st1, h1⟩ := @visitExpr_total elt (pushScope (_extract_comprehension_vars gens) st) hb
      obtain ⟨st2, h2⟩ := visitCompIfs_total gens ((visitExpr_inv elt h1).batch hb)
      exact ⟨popScope st2, by
        rw [visitExpr_setComp_def, bindOk]
        exact ⟨st1, h1, by rw [bindOk]; exact ⟨st2, h2, rfl⟩⟩⟩
  | dictComp ln k v gens =>
      intro st hb
      obtain ⟨st1, h1⟩ := @visitExpr_total k (pushScope (_extract_comprehension_vars gens) st) hb
      obtain ⟨st2, h2⟩ := visitExpr_total v ((visitExpr_inv k h1).batch hb)
      obtain ⟨st3, h3⟩ := visitCompIfs_total gens
        ((visitExpr_inv v h2).batch ((visitExpr_inv k h1).batch hb))
      exact ⟨popScope st3, by
        rw [visitExpr_dictComp_def, bindOk]
        refine ⟨st1, h1, ?_⟩
        rw [bindOk]
        exact ⟨st2, h2, by rw [bindOk]; exact ⟨st3, h3, rfl⟩⟩⟩
termination_by (sizeOf e, 0)

/-- Batch totality for expression lists. -/
theorem visitExprs_total (l : List Expr) : ∀ {st : St}, st.filename ≠ none →
    ∃ st', visitExprs l st = Except.ok st' := by
  cases l with
  | nil =>
      intro st hb
      exact ⟨st, by rw [visitExprs_nil_def]⟩
  | cons e rest =>
      intro st hb
      obtain ⟨st1, h1⟩ := visitExpr_total e hb
      obtain ⟨st2, h2⟩ := visitExprs_total rest ((visitExpr_inv e h1).batch hb)
      exact ⟨st2, by rw [visitExprs_cons_def, bindOk]; exact ⟨st1, h1, h2⟩⟩
termination_by (sizeOf l, 0)

/-- Batch totality for optional expressions. -/
theorem visitOptExpr_total (o : Option Expr) : ∀ {st : St}, st.filename ≠ none →
    ∃ st', visitOptExpr o st = Except.ok st' := by
  cases o with
  | none =>
      intro st hb
      exact ⟨st, by rw [visitOptExpr_none_def]⟩
  | some e =>
      intro st hb
      obtain ⟨st1, h1⟩ := visitExpr_total e hb
      exact ⟨st1, by rw [visitOptExpr_some_def]; exact h1⟩

/-- Batch totality for comprehension filter conditions. -/
theorem visitCompIfs_total (gens : List Comp) : ∀ {st : St}, st.filename ≠ none →
    ∃ st', visitCompIfs gens st = Except.ok st' := by
  cases gens with
  | nil =>
      intro st hb
      exact ⟨st, by rw [visitCompIfs_nil_def]⟩
  | cons g rest =>
      intro st hb
      cases g with
      | mk target iter ifs =>
          obtain ⟨st1, h1⟩ := visitExprs_total ifs hb
          obtain ⟨st2, h2⟩ := visitCompIfs_total rest ((visitExprs_inv ifs h1).batch hb)
          exact ⟨st2, by rw [visitCompIfs_cons_def, bindOk]; exact ⟨st1, h1, h2⟩⟩
termination_by (sizeOf gens, 0)

/-- In batch mode every statement visit runs to completion. -/
theorem visitStmt_total (s : Stmt) : ∀ {st : St}, st.filename ≠ none →
    ∃ st', visitStmt s st = Except.ok st' := by
  cases s with
  | assign ln targets value =>
      intro st hb
      have hb0 : (bindVars (extractAssignVarsList targets) st).filename ≠ none :=
        (stOk_bindVars _ st).batch hb
      obtain ⟨st1, h1⟩ := visitExprs_total targets hb0
      obtain ⟨st2, h2⟩ := visitExpr_total value ((visitExprs_inv targets h1).batch hb0)
      exact ⟨st2, by rw [visitStmt_assign_def, bindOk]; exact ⟨st1, h1, h2⟩⟩
  | annAssign ln target ann value =>
      intro st hb
      exact ⟨_, by rw [visitStmt_annAssign_def]⟩
  | augAssign ln target value =>
      intro st hb
      obtain ⟨st1, h1⟩ := @checkVars_total ln (_extract_assign_vars target) _ hb
      obtain ⟨st2, h2⟩ := visitExpr_total target ((checkVars_inv h1).batch hb)
      obtain ⟨st3, h3⟩ := visitExpr_total value
        ((visitExpr_inv target h2).batch ((checkVars_inv h1).batch hb))
      exact ⟨st3, by
        rw [visitStmt_augAssign_def, bindOk]
        exact ⟨st1, h1, by rw [bindOk]; exact ⟨st2, h2, h3⟩⟩⟩
  | exprStmt ln value =>
      intro st hb
      obtain ⟨st1, h1⟩ := visitExpr_total value hb
      exact ⟨st1, by rw [visitStmt_exprStmt_def]; exact h1⟩
  | ret ln value =>
      intro st hb
      obtain ⟨st1, h1⟩ := visitOptExpr_total value hb
      exact ⟨st1, by rw [visitStmt_ret_def]; exact h1⟩
  | passStmt ln =>
      intro st hb
      exact ⟨st, by rw [visitStmt_passStmt_def]⟩
  | functionDef ln name args body decoratorList =>
      intro st hb
      by_cases hdec : _decorated_to_skip_checking decoratorList = true
      · exact ⟨st, by rw [visitStmt_functionDef_def, if_pos hdec]⟩
      · have hb0 : (pushScope (args.args ++ args.vararg.toList ++ args.kwarg.toList
            ++ args.kwonlyargs) (bindVar name st)).filename ≠ none :=
          (stOk_bindVar name st).batch hb
        obtain ⟨st1, h1⟩ := visitStmts_total body hb0
        obtain ⟨st2, h2⟩ := visitExprs_total decoratorList
          ((visitStmts_inv body h1).batch hb0)
        exact ⟨popScope { st2 with lastFuncScope := st2.scopes.headD ∅ }, by
          rw [visitStmt_functionDef_def, if_neg hdec]
          rw [bindOk]
          exact ⟨st1, h1, by rw [bindOk]; exact ⟨st2, h2, rfl⟩⟩⟩
  | forStmt ln target iter body orelse =>
      intro st hb
      obtain ⟨st1, h1⟩ := @checkLoopReuse_total (exprLine target) (_extract_assign_vars target) _ hb
      have hb1 := (checkLoopReuse_inv h1).batch hb
      have hb2 : (pushScope (_extract_assign_vars target)
          { st1 with forLoopVars :=
              st1.forLoopVars ∪ varsOfList (_extract_assign_vars target) }).filename
            ≠ none := hb1
      obtain ⟨st2, h2⟩ := visitExpr_total target hb2
      have hb3 := (visitExpr_inv target h2).batch hb2
      obtain ⟨st3, h3⟩ := visitExpr_total iter hb3
      have hb4 := (visitExpr_inv iter h3).batch hb3
      obtain ⟨st4, h4⟩ := visitStmts_total body hb4
      have hb5 := (visitStmts_inv body h4).batch hb4
      obtain ⟨st5, h5⟩ := visitStmts_total orelse hb5
      exact ⟨removeLoopVars (_extract_assign_vars target) (popScope st5), by
        rw [visitStmt_forStmt_def, bindOk]
        refine ⟨st1, h1, ?_⟩
        rw [bindOk]
        refine ⟨st2, h2, ?_⟩
        rw [bindOk]
        refine ⟨st3, h3, ?_⟩
        rw [bindOk]
        exact ⟨st4, h4, by rw [bindOk]; exact ⟨st5, h5, rfl⟩⟩⟩
  | whileStmt ln test body orelse =>
      intro st hb
      obtain ⟨st1, h1⟩ := @visitExpr_total test (pushScope (walrusTargets test) st) hb
      have hb1 := (visitExpr_inv test h1).batch hb
      obtain ⟨st2, h2⟩ := visitStmts_total body hb1
      have hb2 := (visitStmts_inv body h2).batch hb1
      obtain ⟨st3, h3⟩ := visitStmts_total orelse hb2
      exact ⟨popScope st3, by
        rw [visitStmt_whileStmt_def, bindOk]
        refine ⟨st1, h1, ?_⟩
        rw [bindOk]
        exact ⟨st2, h2, by rw [bindOk]; exact ⟨st3, h3, rfl⟩⟩⟩
  | ifStmt ln test body orelse =>
      intro st hb
      obtain ⟨st1, h1⟩ := @visitStmts_total body (pushScope (walrusTargets test) st) hb
      have hb1 : (popScope st1).filename ≠ none :=
        (visitStmts_inv body h1).batch hb
      obtain ⟨out, h2⟩ := @visitIfChain_total orelse _ _ (popScope st1) hb1
      cases houtb : out.2.1 with
      | true =>
          exact ⟨updateTop (interList out.1) out.2.2, by
            rw [visitStmt_ifStmt_def, bindOk]
            refine ⟨st1, h1, ?_⟩
            rw [bindOk]
            exact ⟨out, h2, by rw [houtb]; simp⟩⟩
      | false =>
          exact ⟨out.2.2, by
            rw [visitStmt_ifStmt_def, bindOk]
            refine ⟨st1, h1, ?_⟩
            rw [bindOk]
            exact ⟨out, h2, by rw [houtb]; simp⟩⟩
  | tryStmt ln body handlers orelse finalbody =>
      intro st hb
      obtain ⟨st1, h1⟩ := visitHandlers_total handlers hb
      have hb1 := (visitHandlers_inv handlers h1).1.batch hb
      obtain ⟨st2, h2⟩ := visitStmts_total body hb1
      have hb2 := (visitStmts_inv body h2).batch hb1
      obtain ⟨st3, h3⟩ := visitStmts_total orelse hb2
      have hb3 := (visitStmts_inv orelse h3).batch hb2
      obtain ⟨st4, h4⟩ := visitStmts_total finalbody hb3
      exact ⟨st4, by
        rw [visitStmt_tryStmt_def, bindOk]
        refine ⟨st1, h1, ?_⟩
        rw [bindOk]
        exact ⟨st2, h2, by rw [bindOk]; exact ⟨st3, h3, h4⟩⟩⟩
  | withStmt ln items body =>
      intro st hb
      by_cases hbs : isBlockScopeWith items = true
      · obtain ⟨st1, h1⟩ := @visitWithItems_total items (pushScope (withNewVars items) st) hb
        have hb1 := (visitWithItems_inv items h1).batch hb
        obtain ⟨st2, h2⟩ := visitStmts_total body hb1
        exact ⟨popScope st2, by
          rw [visitStmt_withStmt_def, if_pos hbs]
          rw [bindOk]
          exact ⟨st1, h1, by rw [bindOk]; exact ⟨st2, h2, rfl⟩⟩⟩
      · have hb0 : (updateTop (varsOfList (withNewVars items)) st).filename ≠ none :=
          (stOk_updateTop _ st).batch hb
        obtain ⟨st1, h1⟩ := visitWithItems_total items hb0
        have hb1 := (visitWithItems_inv items h1).batch hb0
        obtain ⟨st2, h2⟩ := visitStmts_total body hb1
        exact ⟨st2, by
          rw [visitStmt_withStmt_def, if_neg hbs]
          rw [bindOk]
          exact ⟨st1, h1, h2⟩⟩
  | importStmt ln names =>
      intro st hb
      exact ⟨_, by rw [visitStmt_importStmt_def]⟩
  | importFrom ln module names =>
      intro st hb
      exact ⟨_, by rw [visitStmt_importFrom_def]⟩
termination_by (sizeOf s, 0)

/-- Batch totality for statement lists. -/
theorem visitStmts_total (l : List Stmt) : ∀ {st : St}, st.filename ≠ none →
    ∃ st', visitStmts l st = Except.ok st' := by
  cases l with
  | nil =>
      intro st hb
      exact ⟨st, by rw [visitStmts_nil_def]⟩
  | cons s rest =>
      intro st hb
      obtain ⟨st1, h1⟩ := visitStmt_total s hb
      obtain ⟨st2, h2⟩ := visitStmts_total rest ((visitStmt_inv s h1).batch hb)
      exact ⟨st2, by rw [visitStmts_cons_def, bindOk]; exact ⟨st1, h1, h2⟩⟩
termination_by (sizeOf l, 0)

/-- Batch totality for a single handler. -/
theorem visitHandler1_total (hd : Handler) : ∀ {st : St}, st.filename ≠ none →
    ∃ st', visitHandler1 hd st = Except.ok st' := by
  cases hd with
  | mk ln type name hbody =>
      intro st hb
      cases name with
      | some n =>
          obtain ⟨st1, h1⟩ := @visitOptExpr_total type (pushScope [n] st) hb
          have hb1 := (visitOptExpr_inv type h1).batch hb
          obtain ⟨st2, h2⟩ := visitStmts_total hbody hb1
          exact ⟨popScope st2, by
            rw [visitHandler1_def, bindOk]
            exact ⟨st1, h1, by rw [bindOk]; exact ⟨st2, h2, rfl⟩⟩⟩
      | none =>
          obtain ⟨st1, h1⟩ := @visitOptExpr_total type (pushScope [] st) hb
          have hb1 := (visitOptExpr_inv type h1).batch hb
          obtain ⟨st2, h2⟩ := visitStmts_total hbody hb1
          exact ⟨popScope st2, by
            rw [visitHandler1_def, bindOk]
            exact ⟨st1, h1, by rw [bindOk]; exact ⟨st2, h2, rfl⟩⟩⟩
termination_by (sizeOf hd, 0)

/-- Batch totality for the handler loop. -/
theorem visitHandlers_total (hs : List Handler) : ∀ {st : St}, st.filename ≠ none →
    ∃ st', visitHandlers hs st = Except.ok st' := by
  cases hs with
  | nil =>
      intro st hb
      exact ⟨st, by rw [visitHandlers_nil_def]⟩
  | cons hd rest =>
      intro st hb
      obtain ⟨st1, h1⟩ := visitHandler1_total hd hb
      obtain ⟨st2, h2⟩ := visitHandlers_total rest
        ((visitHandler1_inv hd h1).1.batch hb)
      exact ⟨st2, by rw [visitHandlers_cons_def, bindOk]; exact ⟨st1, h1, h2⟩⟩
termination_by (sizeOf hs, 0)

/-- Batch totality for with-items. -/
theorem visitWithItems_total (items : List WithItem) : ∀ {st : St},
    st.filename ≠ none → ∃ st', visitWithItems items st = Except.ok st' := by
  cases items with
  | nil =>
      intro st hb
      exact ⟨st, by rw [visitWithItems_nil_def]⟩
  | cons i rest =>
      intro st hb
      cases i with
      | mk ce ov =>
          obtain ⟨st1, h1⟩ := visitExpr_total ce hb
          have hb1 := (visitExpr_inv ce h1).batch hb
          obtain ⟨st2, h2⟩ := visitOptExpr_total ov hb1
          obtain ⟨st3, h3⟩ := visitWithItems_total rest
            ((visitOptExpr_inv ov h2).batch hb1)
          exact ⟨st3, by
            rw [visitWithItems_cons_def, bindOk]
            exact ⟨st1, h1, by rw [bindOk]; exact ⟨st2, h2, h3⟩⟩⟩
termination_by (sizeOf items, 0)

/-- Batch totality for the `elif`/`else` walk. -/
theorem visitIfChain_total (orelse : List Stmt) :
    ∀ {walrus : List String} {inherited : List Vars} {st : St}, st.filename ≠ none →
    ∃ out, visitIfChain walrus inherited orelse st = Except.ok out := by
  cases orelse with
  | nil =>
      intro walrus inherited st hb
      exact ⟨(inherited, false, st), by rw [visitIfChain_nil_def]⟩
  | cons s rest =>
      cases s with
      | ifStmt ln2 test2 body2 orelse2 =>
          intro walrus inherited st hb
          obtain ⟨st1, h1⟩ := @visitStmts_total body2 (pushScope (walrus ++ walrusTargets test2) st) hb
          have hb1 : (popScope st1).filename ≠ none :=
            (visitStmts_inv body2 h1).batch hb
          obtain ⟨out, h2⟩ := @visitIfChain_total orelse2 _ _ (popScope st1) hb1
          exact ⟨out, by rw [visitIfChain_elif_def, bindOk]; exact ⟨st1, h1, h2⟩⟩
      | assign a b c => exact visitIfChainTotalElse (by intro a b c d heq; cases heq)
      | annAssign a b c d => exact visitIfChainTotalElse (by intro a b c d heq; cases heq)
      | augAssign a b c => exact visitIfChainTotalElse (by intro a b c d heq; cases heq)
      | exprStmt a b => exact visitIfChainTotalElse (by intro a b c d heq; cases heq)
      | ret a b => exact visitIfChainTotalElse (by intro a b c d heq; cases heq)
      | passStmt a => exact visitIfChainTotalElse (by intro a b c d heq; cases heq)
      | functionDef a b c d e => exact visitIfChainTotalElse (by intro a b c d heq; cases heq)
      | forStmt a b c d e => exact visitIfChainTotalElse (by intro a b c d heq; cases heq)
      | whileStmt a b c d => exact visitIfChainTotalElse (by intro a b c d heq; cases heq)
      | tryStmt a b c d e => exact visitIfChainTotalElse (by intro a b c d heq; cases heq)
      | withStmt a b c => exact visitIfChainTotalElse (by intro a b c d heq; cases heq)
      | importStmt a b => exact visitIfChainTotalElse (by intro a b c d heq; cases heq)
      | importFrom a b c => exact visitIfChainTotalElse (by intro a b c d heq; cases heq)
termination_by (sizeOf orelse, 2)

/-- The else-block case of `visitIfChain_total`, shared by every non-`If`
first statement. -/
theorem visitIfChainTotalElse {s : Stmt} {rest : List Stmt}
    (hne : ∀ a b c d, s ≠ .ifStmt a b c d) :
    ∀ {walrus : List String} {inherited : List Vars} {st : St}, st.filename ≠ none →
    ∃ out, visitIfChain walrus inherited (s :: rest) st = Except.ok out := by
  intro walrus inherited st hb
  obtain ⟨st1, h1⟩ := @visitStmts_total (s :: rest) (pushScope walrus st) hb
  exact ⟨(inherited ++ [st1.scopes.headD ∅], true, popScope st1), by
    rw [visitIfChain_else_def _ _ _ _ _ hne, bindOk]
    exact ⟨st1, h1, rfl⟩⟩
termination_by (sizeOf (s :: rest), 1)

end

/-!
## Support lemmas for the claim theorems
-/

/-- The scope-stack lookup succeeds exactly when some scope holds the name. -/
theorem scopes_any_iff (v : String) (scopes : List Vars) :
    (scopes.any fun s => v ∈ s) = true ↔ ∃ s ∈ scopes, v ∈ s := by
  rw [List.any_eq_true]
  constructor
  · rintro ⟨s, hs, hv⟩
    exact ⟨s, hs, by simpa using hv⟩
  · rintro ⟨s, hs, hv⟩
    exact ⟨s, hs, by simpa using hv⟩

/-- A visible name passes `_check_in_scope` silently. -/
theorem check_in_scope_ok_of_mem {lineno : Nat} {v : String} {st : St}
    (h : ∃ s ∈ st.scopes, v ∈ s) : _check_in_scope lineno v st = Except.ok st := by
  unfold _check_in_scope
  split
  case isTrue => rfl
  case isFalse =>
    rw [if_pos ((scopes_any_iff v st.scopes).mpr h)]

/-- A dunder-pattern name passes `_check_in_scope` silently. -/
theorem check_in_scope_ok_of_dunder {lineno : Nat} {v : String} {st : St}
    (h : builtin_var_match v = true) : _check_in_scope lineno v st = Except.ok st := by
  unfold _check_in_scope
  rw [if_pos h]

/-- An invisible, non-dunder name is reported by `_check_in_scope`. -/
theorem check_in_scope_notfound {lineno : Nat} {v : String} {st : St}
    (hd : builtin_var_match v = false) (hn : ∀ s ∈ st.scopes, v ∉ s) :
    _check_in_scope lineno v st =
      _error lineno (.varNotFound v (nonGlobalUnion st.scopes)) st := by
  unfold _check_in_scope
  rw [if_neg (by rw [hd]; exact Bool.false_ne_true)]
  rw [if_neg]
  intro hany
  obtain ⟨s, hs, hv⟩ := (scopes_any_iff v st.scopes).mp hany
  exact hn s hs hv

theorem containsDD_dd (tl : List Char) : containsDD ('_' :: '_' :: tl) = true := by
  rw [containsDD]

theorem containsDD_cons_ne (c : Char) (tl : List Char) (hc : c ≠ '_') :
    containsDD (c :: tl) = containsDD tl := by
  rw [containsDD.eq_def]
  split
  · rename_i x heq
    injection heq with h1 h2
    exact absurd h1 hc
  · rename_i x tl2 heq
    injection heq with h1 h2
    rw [h2]
  · rename_i heq; cases heq

theorem containsDD_us_cons_ne (c2 : Char) (tl : List Char) (hc2 : c2 ≠ '_') :
    containsDD ('_' :: c2 :: tl) = containsDD (c2 :: tl) := by
  rw [containsDD.eq_def]
  split
  · rename_i x heq
    injection heq with h1 h2
    injection h2 with h3 h4
    exact absurd h3 hc2
  · rename_i x tl2 heq
    injection heq with h1 h2
    rw [h2]
  · rename_i heq; cases heq

theorem containsDD_singleton (c : Char) : containsDD [c] = false := by
  rw [containsDD.eq_def]
  split
  · rename_i x heq
    injection heq with h1 h2
    cases h2
  · rename_i x tl2 heq
    injection heq with h1 h2
    subst h2
    rfl
  · rename_i heq; cases heq

theorem containsDD_append (a b : List Char) : containsDD (a ++ '_' :: '_' :: b) = true := by
  induction a with
  | nil => exact containsDD_dd b
  | cons x xs ih =>
      by_cases hx : x = '_'
      · subst hx
        cases hxs : xs ++ '_' :: '_' :: b with
        | nil => exact absurd hxs (List.append_ne_nil_of_right_ne_nil xs (by simp))
        | cons y tl =>
            by_cases hy : y = '_'
            · subst hy
              show containsDD ('_' :: (xs ++ '_' :: '_' :: b)) = true
              rw [hxs]
              exact containsDD_dd tl
            · show containsDD ('_' :: (xs ++ '_' :: '_' :: b)) = true
              rw [hxs, containsDD_us_cons_ne y tl hy, ← hxs]
              exact ih
      · show containsDD (x :: (xs ++ '_' :: '_' :: b)) = true
        rw [containsDD_cons_ne x _ hx]
        exact ih

/-- `containsDD` finds exactly the occurrences of two consecutive
underscores. -/
theorem containsDD_iff (l : List Char) :
    containsDD l = true ↔ ∃ a b, l = a ++ '_' :: '_' :: b := by
  constructor
  · intro h
    induction l with
    | nil => cases h
    | cons c rest ih =>
        cases rest with
        | nil => rw [containsDD_singleton] at h; cases h
        | cons c2 tl =>
            by_cases hc : c = '_'
            · by_cases hc2 : c2 = '_'
              · subst hc; subst hc2
                exact ⟨[], tl, rfl⟩
              · subst hc
                rw [containsDD_us_cons_ne c2 tl hc2] at h
                obtain ⟨a, b, hab⟩ := ih h
                exact ⟨'_' :: a, b, by rw [hab]; rfl⟩
            · rw [containsDD_cons_ne c _ hc] at h
              obtain ⟨a, b, hab⟩ := ih h
              exact ⟨c :: a, b, by rw [hab]; rfl⟩
  · rintro ⟨a, b, rfl⟩
    exact containsDD_append a b

/-- `re.match("__(.+)__", v)` semantics: the name starts with a double
underscore, followed by at least one character, followed by another double
underscore, with anything allowed after (no end anchor). -/
theorem builtin_var_match_iff (v : String) :
    builtin_var_match v = true ↔
      ∃ m r : List Char, m ≠ [] ∧ v.toList = '_' :: '_' :: (m ++ '_' :: '_' :: r) := by
  unfold builtin_var_match
  split
  · rename_i c rest heq
    rw [containsDD_iff]
    constructor
    · rintro ⟨a, b, hab⟩
      refine ⟨c :: a, b, by simp, ?_⟩
      rw [heq, hab]
      rfl
    · rintro ⟨m, r, hm, hv⟩
      rw [heq] at hv
      injection hv with h1 hv1
      injection hv1 with h2 hv2
      cases m with
      | nil => exact absurd rfl hm
      | cons mc mtl =>
          injection hv2 with h3 hv3
          exact ⟨mtl, r, hv3⟩
  · rename_i hne
    constructor
    · intro h; cases h
    · rintro ⟨m, r, hm, hv⟩
      cases m with
      | nil => exact absurd rfl hm
      | cons mc mtl =>
          exact absurd hv (hne mc (mtl ++ '_' :: '_' :: r))

/-- `self.`-prefixed names never match the dunder pattern. -/
theorem builtin_var_match_self (attr : String) :
    builtin_var_match (String.append ("self.") attr) = false := by
  refine Bool.eq_false_iff.mpr ?_
  intro htrue
  rw [builtin_var_match_iff] at htrue
  obtain ⟨m, r, hm, hv⟩ := htrue
  have h : (String.append ("self.") attr).toList
      = 's' :: 'e' :: 'l' :: 'f' :: '.' :: attr.toList := rfl
  rw [h] at hv
  injection hv with h1 h2
  exact absurd h1 (by decide)

/-!
## Claim theorems
-/

/-- A fresh strict-mode checker state over one empty scope. -/
def stStrict : St := ⟨[∅], ∅, some ("f"), none, false, ∅, []⟩

/-- A fresh batch-mode checker state over one empty scope. -/
def stBatch : St := ⟨[∅], ∅, some ("f"), some ("f.py"), false, ∅, []⟩

theorem foldl_append_init {α β : Type} (g : α → List β) :
    ∀ (l : List α) (acc : List β),
    l.foldl (fun acc a => acc ++ g a) acc =
      acc ++ l.foldl (fun acc a => acc ++ g a) [] := by
  intro l
  induction l with
  | nil => intro acc; simp
  | cons x xs ih =>
      intro acc
      simp only [List.foldl_cons, List.nil_append]
      rw [ih (acc ++ g x), ih (g x), List.append_assoc]

/-- C5: strict mode (no file identifier) surfaces the first diagnostic by
raising, aborting the remaining traversal; batch mode (file identifier
supplied) appends every diagnostic and always runs the unit to completion,
never silently dropping or aborting. -/
theorem claim_C5_error_modes :
    (∀ (lineno : Nat) (k : DiagKind) (st : St), st.filename = none →
        _error lineno k st = Except.error ⟨lineno, st.locName, k⟩) ∧
    (∀ (lineno : Nat) (k : DiagKind) (st : St) (f : String), st.filename = some f →
        _error lineno k st =
          Except.ok { st with errors := st.errors ++ [⟨lineno, st.locName, k⟩] }) ∧
    (∀ (s : Stmt) (rest : List Stmt) (st : St) (d : Diag),
        visitStmt s st = Except.error d →
        visitStmts (s :: rest) st = Except.error d) ∧
    (∀ (s : Stmt) (st : St) (f : String), st.filename = some f →
        ∃ st' δ, visitStmt s st = Except.ok st' ∧ st'.errors = st.errors ++ δ) ∧
    (∀ (s : Stmt) (st st' : St), st.filename = none →
        visitStmt s st = Except.ok st' → st'.errors = st.errors) := by
  refine ⟨?_, ?_, ?_, ?_, ?_⟩
  · intro lineno k st hn
    exact error_strict hn
  · intro lineno k st f hf
    exact error_total (by rw [hf]; simp)
  · intro s rest st d h
    rw [visitStmts_cons_def, h]
    rfl
  · intro s st f hf
    obtain ⟨st', h⟩ := visitStmt_total s (by rw [hf]; simp)
    obtain ⟨d, hd⟩ := (visitStmt_inv s h).errors_append
    exact ⟨st', d, h, hd⟩
  · intro s st st' hn h
    exact (visitStmt_inv s h).strict_silent hn

/-- Witness for C5 at concrete inputs. -/
theorem claim_C5_witness :
    (_error 3 (.loopVarReuse ("i")) stStrict =
      Except.error ⟨3, ("f"), .loopVarReuse ("i")⟩) ∧
    (_error 3 (.loopVarReuse ("i")) stBatch =
      Except.ok { stBatch with errors := [⟨3, ("f.py"), .loopVarReuse ("i")⟩] }) ∧
    (∃ st' δ, visitStmt (.passStmt 1) stBatch = Except.ok st' ∧
      st'.errors = stBatch.errors ++ δ) := by
  refine ⟨?_, ?_, ?_⟩
  · exact claim_C5_error_modes.1 3 (.loopVarReuse ("i")) stStrict rfl
  · exact claim_C5_error_modes.2.1 3 (.loopVarReuse ("i")) stBatch ("f.py") rfl
  · exact claim_C5_error_modes.2.2.2.1 (.passStmt 1) stBatch ("f.py") rfl

/-- C6 (amended): a load-context name is reported iff it is in no scope on
the stack and does not match the *prefix-anchored* pattern `__(.+)__` —
i.e. starts with a double underscore followed by at least one character and
a later double underscore; a double-underscore *suffix* is not required. -/
theorem claim_C6_scope_check :
    (∀ v : String, builtin_var_match v = true ↔
        ∃ m r : List Char, m ≠ [] ∧ v.toList = '_' :: '_' :: (m ++ '_' :: '_' :: r)) ∧
    (∀ (lineno : Nat) (v : String) (st : St),
        _check_in_scope lineno v st = Except.ok st ↔
          (builtin_var_match v = true ∨ ∃ s ∈ st.scopes, v ∈ s)) ∧
    (∀ (lineno : Nat) (v : String) (st : St),
        builtin_var_match v = false → (∀ s ∈ st.scopes, v ∉ s) →
        _check_in_scope lineno v st =
          _error lineno (.varNotFound v (nonGlobalUnion st.scopes)) st) := by
  refine ⟨builtin_var_match_iff, ?_, ?_⟩
  · intro lineno v st
    constructor
    · intro h
      by_contra hc
      push_neg at hc
      obtain ⟨hd, hn⟩ := hc
      rw [check_in_scope_notfound (Bool.eq_false_iff.mpr hd) hn] at h
      unfold _error at h
      split at h
      · cases h
      · have he := congrArg St.errors (Except.ok.inj h)
        simp at he
    · intro h
      cases h with
      | inl hd => exact check_in_scope_ok_of_dunder hd
      | inr hm => exact check_in_scope_ok_of_mem hm
  · intro lineno v st hd hn
    exact check_in_scope_notfound hd hn

/-- Witness for C6 at concrete inputs: `__name__` is exempt, an unbound
plain name is reported. -/
theorem claim_C6_witness :
    (_check_in_scope 1 ("__name__") stStrict = Except.ok stStrict) ∧
    (_check_in_scope 1 ("x") stStrict =
      _error 1 (.varNotFound ("x") (nonGlobalUnion stStrict.scopes)) stStrict) := by
  constructor
  · exact (claim_C6_scope_check.2.1 1 ("__name__") stStrict).mpr (Or.inl (by decide))
  · exact claim_C6_scope_check.2.2 1 ("x") stStrict (by decide)
      (by intro s hs; simp [stStrict] at hs; simp [hs])

/-- Counterexample to C6 as stated: `__x__y` is prefixed but not suffixed by
a double underscore, it is contained in no scope, and yet no diagnostic is
produced (the regex is only anchored at the start). -/
theorem claim_C6_counterexample :
    (_check_in_scope 1 ("__x__y") stStrict = Except.ok stStrict) ∧
    (∀ s ∈ stStrict.scopes, ("__x__y" : String) ∉ s) ∧
    ¬ ∃ p : List Char, ("__x__y" : String).toList = p ++ ['_', '_'] := by
  refine ⟨?_, ?_, ?_⟩
  · exact check_in_scope_ok_of_dunder (by decide)
  · intro s hs
    simp [stStrict] at hs
    simp [hs]
  · rintro ⟨p, hp⟩
    have h2 : List.reverse (("__x__y" : String).toList)
        = List.reverse (p ++ ['_', '_']) := by rw [hp]
    rw [List.reverse_append] at h2
    have h3 : ('y' :: '_' :: '_' :: 'x' :: '_' :: '_' :: [])
        = '_' :: '_' :: p.reverse := h2
    injection h3 with h4 h5
    exact absurd h4 (by decide)

/-- C7 (amended): a plain import binds the module path plus the alias when
one is present, and the top-level package name only when there is no alias;
a from-import binds `module.name` and the alias-or-name for each non-wildcard
alias; a wildcard alias contributes the literal entry `*` (which no
identifier read can ever match), not nothing. -/
theorem claim_C7_import_bindings :
    (∀ n : String, importVisitImport [⟨n, none⟩] = [n, topPackage n]) ∧
    (∀ n al : String, al ≠ "" → importVisitImport [⟨n, some al⟩] = [n, al]) ∧
    (∀ m n al : String, n ≠ "*" → al ≠ "" →
        importVisitFrom m [⟨n, some al⟩] = [m ++ (".") ++ n, al]) ∧
    (∀ m n : String, n ≠ "*" →
        importVisitFrom m [⟨n, none⟩] = [m ++ (".") ++ n, n]) ∧
    (∀ m : String, importVisitFrom m [⟨"*", none⟩] = [("*")]) ∧
    (∀ xs ys, importVisitImport (xs ++ ys) =
        importVisitImport xs ++ importVisitImport ys) ∧
    (∀ m xs ys, importVisitFrom m (xs ++ ys) =
        importVisitFrom m xs ++ importVisitFrom m ys) := by
  refine ⟨?_, ?_, ?_, ?_, ?_, ?_, ?_⟩
  · intro n
    simp [importVisitImport]
  · intro n al hal
    simp [importVisitImport, hal]
  · intro m n al hn hal
    simp [importVisitFrom, hn, hal]
  · intro m n hn
    simp [importVisitFrom, hn]
  · intro m
    simp [importVisitFrom]
  · intro xs ys
    unfold importVisitImport
    rw [List.foldl_append]
    simp only [List.append_assoc]
    rw [foldl_append_init]
  · intro m xs ys
    unfold importVisitFrom
    rw [List.foldl_append]
    simp only [List.append_assoc]
    rw [foldl_append_init]

/-- Witness for C7 at concrete inputs. -/
theorem claim_C7_witness :
    (importVisitImport [⟨"a.b", some ("c")⟩] = ["a.b", "c"]) ∧
    (importVisitFrom ("m") [⟨"x", some ("y")⟩] = ["m.x", "y"]) ∧
    (importVisitFrom ("m") [⟨"*", none⟩] = [("*")]) := by
  refine ⟨?_, ?_, ?_⟩
  · exact claim_C7_import_bindings.2.1 ("a.b") ("c") (by decide)
  · exact claim_C7_import_bindings.2.2.1 ("m") ("x") ("y") (by decide) (by decide)
  · exact claim_C7_import_bindings.2.2.2.2.1 ("m")

/-- Counterexample to C7 as stated: with an alias present, the top-level
package name `a` is *not* among the bindings of `import a.b as c`; and the
wildcard import `from m import *` contributes the binding `*` rather than
nothing. -/
theorem claim_C7_counterexample :
    (importVisitImport [⟨"a.b", some ("c")⟩] = ["a.b", "c"]) ∧
    (("a" : String) ∉ importVisitImport [⟨"a.b", some ("c")⟩]) ∧
    (importVisitFrom ("m") [⟨"*", none⟩] = [("*")]) ∧
    (importVisitFrom ("m") [⟨"*", none⟩] ≠ []) := by
  refine ⟨?_, ?_, ?_, ?_⟩
  · simp [importVisitImport]
  · simp [importVisitImport]
  · simp [importVisitFrom]
  · simp [importVisitFrom]

/-- Binding an `Except.ok` value reduces to the continuation. -/
theorem okBind {α β : Type} (a : α) (f : α → Except Diag β) :
    ((Except.ok a : Except Diag α) >>= f) = f a := rfl

/-- Visiting a single store-context name target is a no-op. -/
theorem visitExprs_store_name (ln : Nat) (v : String) (st : St) :
    visitExprs [Expr.name ln v .store] st = Except.ok st := by
  rw [visitExprs_cons_def, visitExpr_name_def]
  show ((Except.ok st : Except Diag St) >>= fun st1 => visitExprs [] st1) = Except.ok st
  rw [okBind, visitExprs_nil_def]

theorem extractAssignVarsList_nil : extractAssignVarsList [] = [] := by
  rw [extractAssignVarsList.eq_def]

theorem extractAssignVarsList_cons (e : Expr) (rest : List Expr) :
    extractAssignVarsList (e :: rest) =
      _extract_assign_vars e ++ extractAssignVarsList rest := by
  rw [extractAssignVarsList.eq_def]

theorem extract_name (ln : Nat) (v : String) (ctx : Ctx) :
    _extract_assign_vars (.name ln v ctx) = [v] := by
  rw [_extract_assign_vars.eq_def]

/-- The single-name assignment target extracts exactly that name. -/
theorem extract_single_name (ln : Nat) (v : String) (ctx : Ctx) :
    extractAssignVarsList [Expr.name ln v ctx] = [v] := by
  rw [extractAssignVarsList_cons, extract_name, extractAssignVarsList_nil]
  simp

/-- C8 (amended): a load-context read of a name bound nowhere is reported
(here: strict mode raises), but a read in the right-hand side of the very
assignment statement that first binds the name is *not* reported, because
`visit_Assign` adds the targets to the current scope before `generic_visit`
reaches the value expression. -/
theorem claim_C8_use_before_assignment :
    (∀ (ln : Nat) (v : String) (st : St), st.filename = none →
        builtin_var_match v = false → (∀ s ∈ st.scopes, v ∉ s) →
        visitExpr (.name ln v .load) st =
          Except.error ⟨ln, st.locName, .varNotFound v (nonGlobalUnion st.scopes)⟩) ∧
    (∀ (ln ln2 ln3 : Nat) (v : String) (st : St) (S : Vars) (rest : List Vars),
        st.scopes = S :: rest →
        visitStmt (.assign ln [.name ln2 v .store] (.name ln3 v .load)) st =
          Except.ok { st with scopes := insert v S :: rest }) := by
  constructor
  · intro ln v st hs hd hn
    rw [visitExpr_name_def]
    show _check_in_scope ln v st = _
    rw [check_in_scope_notfound hd hn, error_strict hs]
  · intro ln ln2 ln3 v st S rest hscopes
    rw [visitStmt_assign_def, extract_single_name]
    have h1 : bindVars [v] st = { st with scopes := insert v S :: rest } := by
      simp [bindVars, bindVar, updTop, hscopes]
    rw [h1, visitExprs_store_name, okBind, visitExpr_name_def]
    show _check_in_scope ln3 v { st with scopes := insert v S :: rest } = _
    by_cases hdun : builtin_var_match v = true
    · exact check_in_scope_ok_of_dunder hdun
    · exact check_in_scope_ok_of_mem
        ⟨insert v S, List.mem_cons_self _ _, Finset.mem_insert_self v S⟩

/-- Witness for C8 at concrete inputs. -/
theorem claim_C8_witness :
    (visitExpr (.name 2 ("x") .load) stStrict =
      Except.error ⟨2, ("f"), .varNotFound ("x") (nonGlobalUnion stStrict.scopes)⟩) ∧
    (visitStmt (.assign 2 [.name 2 ("y") .store] (.name 2 ("y") .load)) stStrict =
      Except.ok { stStrict with scopes := [insert ("y") ∅] }) := by
  constructor
  · exact claim_C8_use_before_assignment.1 2 ("x") stStrict rfl (by decide)
      (by intro s hs; simp [stStrict] at hs; simp [hs])
  · exact claim_C8_use_before_assignment.2 2 2 2 ("y") stStrict ∅ [] rfl

/-- Counterexample to C8 as stated: in the statement `x = x`, the name `x`
is visible in no scope beforehand, yet the checker accepts the statement
with no diagnostic (and no exception), because the target is bound before
the value is visited. -/
theorem claim_C8_counterexample :
    (("x" : String) ∉ (∅ : Finset String)) ∧
    visitStmt (.assign 2 [.name 2 ("x") .store] (.name 2 ("x") .load)) stStrict =
      Except.ok { stStrict with scopes := [insert ("x") ∅] } := by
  constructor
  · simp
  · rw [visitStmt_assign_def, extract_single_name]
    have h1 : bindVars [("x" : String)] stStrict =
        { stStrict with scopes := [insert ("x") ∅] } := by
      simp [bindVars, bindVar, updTop, stStrict]
    rw [h1, visitExprs_store_name, okBind, visitExpr_name_def]
    show _check_in_scope 2 ("x") { stStrict with scopes := [insert ("x") ∅] } = _
    exact check_in_scope_ok_of_mem
      ⟨insert ("x") ∅, List.mem_cons_self _ _, Finset.mem_insert_self _ ∅⟩

/-- Pointwise sameness of comprehension generators up to their iterable
expressions: targets and filter conditions agree, iterables may differ. -/
def sameTargetIfs : List Comp → List Comp → Prop
  | [], [] => True
  | .mk t _ i :: r, .mk t' _ i' :: r' => t = t' ∧ i = i' ∧ sameTargetIfs r r'
  | _, _ => False

theorem comp_vars_eq_aux (g : List Comp) : ∀ (g' : List Comp) (acc : List String),
    sameTargetIfs g g' →
    g.foldl (fun acc c => acc ++ compTargetVars c) acc =
      g'.foldl (fun acc c => acc ++ compTargetVars c) acc := by
  induction g with
  | nil =>
      intro g' acc hs
      cases g' with
      | nil => rfl
      | cons c r => cases c; cases hs
  | cons c r ih =>
      intro g' acc hs
      cases c with
      | mk t i ifs =>
          cases g' with
          | nil => cases hs
          | cons c' r' =>
              cases c' with
              | mk t' i' ifs' =>
                  obtain ⟨ht, hi, hr⟩ := hs
                  subst ht; subst hi
                  simp only [List.foldl_cons]
                  exact ih r' (acc ++ compTargetVars (Comp.mk t i ifs)) hr

/-- Generator targets are read only from the target field, so two
generator lists agreeing on targets extract the same variables. -/
theorem comp_vars_eq {g g' : List Comp} (hs : sameTargetIfs g g') :
    _extract_comprehension_vars g = _extract_comprehension_vars g' := by
  unfold _extract_comprehension_vars
  exact comp_vars_eq_aux g g' [] hs

/-- The filter-condition loop never reads the iterables. -/
theorem comp_ifs_eq (g : List Comp) : ∀ (g' : List Comp) (st : St),
    sameTargetIfs g g' → visitCompIfs g st = visitCompIfs g' st := by
  induction g with
  | nil =>
      intro g' st hs
      cases g' with
      | nil => rfl
      | cons c r => cases c; cases hs
  | cons c r ih =>
      intro g' st hs
      cases c with
      | mk t i ifs =>
          cases g' with
          | nil => cases hs
          | cons c' r' =>
              cases c' with
              | mk t' i' ifs' =>
                  obtain ⟨ht, hi, hr⟩ := hs
                  subst ht; subst hi
                  rw [visitCompIfs_cons_def, visitCompIfs_cons_def]
                  cases hif : visitExprs ifs st with
                  | error d => rfl
                  | ok st1 => rw [okBind, okBind, ih r' st1 hr]

/-- C9: list/set/dict comprehensions are checked independently of their
generators' iterable expressions (those are never visited), and an
unresolved name appearing only in an iterable produces no diagnostic in
either mode. -/
theorem claim_C9_comprehension_iterables :
    (∀ (ln : Nat) (elt : Expr) (gens gens' : List Comp) (st : St),
        sameTargetIfs gens gens' →
        visitExpr (.listComp ln elt gens) st = visitExpr (.listComp ln elt gens') st) ∧
    (∀ (ln : Nat) (elt : Expr) (gens gens' : List Comp) (st : St),
        sameTargetIfs gens gens' →
        visitExpr (.setComp ln elt gens) st = visitExpr (.setComp ln elt gens') st) ∧
    (∀ (ln : Nat) (k v : Expr) (gens gens' : List Comp) (st : St),
        sameTargetIfs gens gens' →
        visitExpr (.dictComp ln k v gens) st = visitExpr (.dictComp ln k v gens') st) ∧
    (∀ (ln la lb lv : Nat) (x v : String) (st : St),
        visitExpr (.listComp ln (.name la x .load)
          [.mk (.name lb x .store) (.name lv v .load) []]) st = Except.ok st) := by
  refine ⟨?_, ?_, ?_, ?_⟩
  · intro ln elt gens gens' st hs
    rw [visitExpr_listComp_def, visitExpr_listComp_def, comp_vars_eq hs]
    cases hel : visitExpr elt (pushScope (_extract_comprehension_vars gens') st) with
    | error d => rfl
    | ok st1 => rw [okBind, okBind, comp_ifs_eq gens gens' st1 hs]
  · intro ln elt gens gens' st hs
    rw [visitExpr_setComp_def, visitExpr_setComp_def, comp_vars_eq hs]
    cases hel : visitExpr elt (pushScope (_extract_comprehension_vars gens') st) with
    | error d => rfl
    | ok st1 => rw [okBind, okBind, comp_ifs_eq gens gens' st1 hs]
  · intro ln k v gens gens' st hs
    rw [visitExpr_dictComp_def, visitExpr_dictComp_def, comp_vars_eq hs]
    cases hk : visitExpr k (pushScope (_extract_comprehension_vars gens') st) with
    | error d => rfl
    | ok st1 =>
        rw [okBind, okBind]
        cases hv : visitExpr v st1 with
        | error d => rfl
        | ok st2 => rw [okBind, okBind, comp_ifs_eq gens gens' st2 hs]
  · intro ln la lb lv x v st
    rw [visitExpr_listComp_def]
    have hvars : _extract_comprehension_vars
        [Comp.mk (.name lb x .store) (.name lv v .load) []] = [x] := by
      simp [_extract_comprehension_vars, compTargetVars]
    rw [hvars]
    have helt : visitExpr (.name la x .load) (pushScope [x] st) =
        Except.ok (pushScope [x] st) := by
      rw [visitExpr_name_def]
      show _check_in_scope la x (pushScope [x] st) = _
      by_cases hdun : builtin_var_match x = true
      · exact check_in_scope_ok_of_dunder hdun
      · refine check_in_scope_ok_of_mem ⟨varsOfList [x], List.mem_cons_self _ _, ?_⟩
        simp [varsOfList]
    rw [helt, okBind, visitCompIfs_cons_def, visitExprs_nil_def, okBind,
      visitCompIfs_nil_def, okBind]
    rfl

/-- Witness for C9 at concrete inputs: the same comprehension with two
different (one unresolvable) iterables yields identical results. -/
theorem claim_C9_witness :
    visitExpr (.listComp 1 (.name 1 ("x") .load)
      [.mk (.name 1 ("x") .store) (.name 1 ("unknown_thing") .load) []]) stStrict =
    visitExpr (.listComp 1 (.name 1 ("x") .load)
      [.mk (.name 1 ("x") .store) (.constant 1) []]) stStrict := by
  exact claim_C9_comprehension_iterables.1 1 (.name 1 ("x") .load)
    [.mk (.name 1 ("x") .store) (.name 1 ("unknown_thing") .load) []]
    [.mk (.name 1 ("x") .store) (.constant 1) []] stStrict
    ⟨rfl, rfl, trivial⟩

/-- C10: an annotated assignment only binds its target names; neither the
annotation nor the value expression is visited, so their contents can never
produce a diagnostic — unlike a plain assignment, whose value expression is
checked. -/
theorem claim_C10_annassign :
    (∀ (ln : Nat) (target ann : Expr) (value : Option Expr) (st : St),
        visitStmt (.annAssign ln target ann value) st =
          Except.ok (bindVars (_extract_assign_vars target) st)) ∧
    (∀ (ln : Nat) (target ann : Expr) (value : Option Expr)
        (ann' : Expr) (value' : Option Expr) (st : St),
        visitStmt (.annAssign ln target ann value) st =
          visitStmt (.annAssign ln target ann' value') st) ∧
    (∀ (ln lt lv : Nat) (x v : String) (st : St), st.filename = none →
        builtin_var_match v = false → v ≠ x → (∀ s ∈ st.scopes, v ∉ s) →
        visitStmt (.assign ln [.name lt x .store] (.name lv v .load)) st =
          Except.error ⟨lv, st.locName, .varNotFound v
            (nonGlobalUnion (updTop (insert x) st.scopes))⟩) := by
  refine ⟨?_, ?_, ?_⟩
  · intro ln target ann value st
    rw [visitStmt_annAssign_def]
  · intro ln target ann value ann' value' st
    rw [visitStmt_annAssign_def, visitStmt_annAssign_def]
  · intro ln lt lv x v st hs hd hvx hn
    rw [visitStmt_assign_def, extract_single_name]
    have h1 : bindVars [x] st = { st with scopes := updTop (insert x) st.scopes } := by
      simp [bindVars, bindVar]
    rw [h1, visitExprs_store_name, okBind, visitExpr_name_def]
    show _check_in_scope lv v { st with scopes := updTop (insert x) st.scopes } = _
    have hn' : ∀ s ∈ ({ st with scopes := updTop (insert x) st.scopes } : St).scopes,
        v ∉ s := by
      intro s hsmem
      cases hsc : st.scopes with
      | nil => rw [hsc] at hsmem; simp [updTop] at hsmem
      | cons S r =>
          rw [hsc] at hsmem
          simp only [updTop, List.mem_cons] at hsmem
          cases hsmem with
          | inl hh =>
              subst hh
              intro hvm
              cases Finset.mem_insert.mp hvm with
              | inl h => exact hvx h
              | inr h => exact hn S (by rw [hsc]; exact List.mem_cons_self _ _) h
          | inr hh => exact hn s (by rw [hsc]; exact List.mem_cons.mpr (Or.inr hh))
    have hs' : ({ st with scopes := updTop (insert x) st.scopes } : St).filename
        = none := hs
    rw [check_in_scope_notfound hd hn', error_strict hs']
    rfl

/-- Witness for C10 at concrete inputs: an annotated assignment whose value
is an unresolved name passes, the same plain assignment raises. -/
theorem claim_C10_witness :
    (visitStmt (.annAssign 2 (.name 2 ("y") .store) (.name 2 ("int") .load)
        (some (.name 2 ("unknown_thing") .load))) stStrict =
      Except.ok (bindVars [("y")] stStrict)) ∧
    (visitStmt (.assign 2 [.name 2 ("y") .store]
        (.name 2 ("unknown_thing") .load)) stStrict =
      Except.error ⟨2, ("f"), .varNotFound ("unknown_thing")
        (nonGlobalUnion (updTop (insert ("y")) stStrict.scopes))⟩) := by
  constructor
  · exact claim_C10_annassign.1 2 (.name 2 ("y") .store) (.name 2 ("int") .load)
      (some (.name 2 ("unknown_thing") .load)) stStrict
  · exact claim_C10_annassign.2.2 2 2 2 ("y") ("unknown_thing") stStrict rfl
      (by decide) (by decide) (by intro s hs; simp [stStrict] at hs; simp [hs])

/-- Binding an `Except.error` value short-circuits. -/
theorem errBind {α β : Type} (d : Diag) (f : α → Except Diag β) :
    ((Except.error d : Except Diag α) >>= f) = Except.error d := rfl

theorem exprLine_name (ln : Nat) (v : String) (ctx : Ctx) :
    exprLine (.name ln v ctx) = ln := rfl

/-- A store-context name visit is a no-op. -/
theorem visitExpr_store_name (ln : Nat) (v : String) (st : St) :
    visitExpr (.name ln v .store) st = Except.ok st := by
  rw [visitExpr_name_def]

/-- A `pass` statement list is a no-op. -/
theorem visitStmts_pass (ln : Nat) (st : St) :
    visitStmts [Stmt.passStmt ln] st = Except.ok st := by
  rw [visitStmts_cons_def, visitStmt_passStmt_def, okBind, visitStmts_nil_def]

theorem checkLoopReuse_single_ok (ln : Nat) (v : String) (st : St)
    (hv : v ∉ st.forLoopVars) : checkLoopReuse ln [v] st = Except.ok st := by
  unfold checkLoopReuse
  by_cases hu : v = "_"
  · rw [if_pos hu]
    rfl
  · rw [if_neg hu, if_neg hv]
    rfl

theorem checkLoopReuse_single_strict (ln : Nat) (v : String) (st : St)
    (hs : st.filename = none) (hu : v ≠ "_") (hv : v ∈ st.forLoopVars) :
    checkLoopReuse ln [v] st = Except.error ⟨ln, st.locName, .loopVarReuse v⟩ := by
  unfold checkLoopReuse
  rw [if_neg hu, if_pos hv, error_strict hs]
  rfl

theorem checkLoopReuse_single_batch (ln : Nat) (v : String) (st : St)
    (hb : st.filename ≠ none) (hu : v ≠ "_") (hv : v ∈ st.forLoopVars) :
    checkLoopReuse ln [v] st =
      Except.ok { st with errors := st.errors ++ [⟨ln, st.locName, .loopVarReuse v⟩] } := by
  unfold checkLoopReuse
  rw [if_neg hu, if_pos hv, error_total hb, okBind]
  rfl

/-- A one-name `for` loop over a constant with a `pass` body is a complete
round trip: the scope and the loop-variable registry are fully restored. -/
theorem simple_for_roundtrip (ln : Nat) (v : String) (st : St)
    (hv : v ∉ st.forLoopVars) :
    visitStmt (.forStmt ln (.name ln v .store) (.constant ln)
      [.passStmt ln] []) st = Except.ok st := by
  rw [visitStmt_forStmt_def, exprLine_name, extract_name,
    checkLoopReuse_single_ok ln v st hv, okBind, visitExpr_store_name, okBind,
    visitExpr_constant_def, okBind, visitStmts_pass, okBind, visitStmts_nil_def,
    okBind]
  have hflv : (st.forLoopVars ∪ varsOfList [v]).erase v = st.forLoopVars := by
    ext a
    simp only [Finset.mem_erase, Finset.mem_union, varsOfList, List.foldr_cons,
      List.foldr_nil, Finset.mem_insert, Finset.not_mem_empty, or_false]
    constructor
    · rintro ⟨hne, h | h⟩
      · exact h
      · exact absurd h hne
    · intro ha
      exact ⟨fun he => hv (he ▸ ha), Or.inl ha⟩
  have hrm : removeLoopVars [v] (popScope (pushScope [v]
      { st with forLoopVars := st.forLoopVars ∪ varsOfList [v] })) = st := by
    show removeLoopVars [v] { st with forLoopVars := st.forLoopVars ∪ varsOfList [v] } = st
    unfold removeLoopVars
    simp only [List.foldl_cons, List.foldl_nil]
    rw [if_pos (Finset.mem_union_right _ (by simp [varsOfList]))]
    show ({ st with forLoopVars := (st.forLoopVars ∪ varsOfList [v]).erase v } : St) = st
    rw [hflv]
  rw [hrm]

/-- C4: a for/async-for target other than the wildcard that is already in
the active loop-variable registry is reported — immediately raising in
strict mode, appending (and continuing) in batch mode; nesting two loops on
the same name triggers it, while two sequential loops sharing a target are
accepted because the registry entry is removed at loop exit. -/
theorem claim_C4_loop_reuse :
    (∀ (ln : Nat) (v : String) (iterE : Expr) (body orelse : List Stmt) (st : St),
        st.filename = none → v ≠ "_" → v ∈ st.forLoopVars →
        visitStmt (.forStmt ln (.name ln v .store) iterE body orelse) st =
          Except.error ⟨ln, st.locName, .loopVarReuse v⟩) ∧
    (∀ (ln : Nat) (v : String) (iterE : Expr) (body orelse : List Stmt) (st : St)
        (f : String), st.filename = some f → v ≠ "_" → v ∈ st.forLoopVars →
        ∃ st', visitStmt (.forStmt ln (.name ln v .store) iterE body orelse) st =
            Except.ok st' ∧ (⟨ln, st.locName, .loopVarReuse v⟩ : Diag) ∈ st'.errors) ∧
    (∀ (ln ln2 : Nat) (v : String) (st : St),
        st.filename = none → v ≠ "_" → v ∉ st.forLoopVars →
        visitStmt (.forStmt ln (.name ln v .store) (.constant ln)
            [.forStmt ln2 (.name ln2 v .store) (.constant ln2) [.passStmt ln2] []]
            []) st =
          Except.error ⟨ln2, st.locName, .loopVarReuse v⟩) ∧
    (∀ (ln ln2 : Nat) (v : String) (st : St), v ∉ st.forLoopVars →
        visitStmts
          [.forStmt ln (.name ln v .store) (.constant ln) [.passStmt ln] [],
           .forStmt ln2 (.name ln2 v .store) (.constant ln2) [.passStmt ln2] []]
          st = Except.ok st) := by
  refine ⟨?_, ?_, ?_, ?_⟩
  · intro ln v iterE body orelse st hs hu hv
    rw [visitStmt_forStmt_def, exprLine_name, extract_name,
      checkLoopReuse_single_strict ln v st hs hu hv, errBind]
  · intro ln v iterE body orelse st f hf hu hv
    have hb : st.filename ≠ none := by rw [hf]; simp
    rw [visitStmt_forStmt_def, exprLine_name, extract_name,
      checkLoopReuse_single_batch ln v st hb hu hv, okBind]
    set st1 : St :=
      { st with errors := st.errors ++ [⟨ln, st.locName, .loopVarReuse v⟩] } with hst1
    have hb1 : (pushScope [v]
        { st1 with forLoopVars := st1.forLoopVars ∪ varsOfList [v] }).filename
        ≠ none := hb
    obtain ⟨st2, h2⟩ := visitExpr_total (.name ln v .store) hb1
    have hb2 := (visitExpr_inv _ h2).batch hb1
    obtain ⟨st3, h3⟩ := visitExpr_total iterE hb2
    have hb3 := (visitExpr_inv _ h3).batch hb2
    obtain ⟨st4, h4⟩ := visitStmts_total body hb3
    have hb4 := (visitStmts_inv _ h4).batch hb3
    obtain ⟨st5, h5⟩ := visitStmts_total orelse hb4
    refine ⟨removeLoopVars [v] (popScope st5), ?_, ?_⟩
    · rw [h2, okBind, h3, okBind, h4, okBind, h5, okBind]
    · have hms : StOk (pushScope [v]
          { st1 with forLoopVars := st1.forLoopVars ∪ varsOfList [v] }) st5 :=
        (((visitExpr_inv _ h2).trans (visitExpr_inv _ h3)).trans
          (visitStmts_inv _ h4)).trans (visitStmts_inv _ h5)
      obtain ⟨δ, hδ⟩ := hms.errors_append
      have : (removeLoopVars [v] (popScope st5)).errors = st5.errors := rfl
      rw [this, hδ]
      show (⟨ln, st.locName, .loopVarReuse v⟩ : Diag) ∈ st1.errors ++ δ
      exact List.mem_append.mpr (Or.inl (by rw [hst1]; simp))
  · intro ln ln2 v st hs hu hv
    rw [visitStmt_forStmt_def, exprLine_name, extract_name,
      checkLoopReuse_single_ok ln v st hv, okBind, visitExpr_store_name, okBind,
      visitExpr_constant_def, okBind]
    set stP : St := pushScope [v] { st with forLoopVars := st.forLoopVars ∪ varsOfList [v] }
      with hstP
    have hinner : visitStmt (.forStmt ln2 (.name ln2 v .store) (.constant ln2)
        [.passStmt ln2] []) stP = Except.error ⟨ln2, st.locName, .loopVarReuse v⟩ := by
      have hsP : stP.filename = none := hs
      have hvP : v ∈ stP.forLoopVars :=
        Finset.mem_union_right _ (by simp [varsOfList])
      rw [visitStmt_forStmt_def, exprLine_name, extract_name,
        checkLoopReuse_single_strict ln2 v stP hsP hu hvP, errBind]
      rfl
    rw [visitStmts_cons_def, hinner, errBind, errBind]
  · intro ln ln2 v st hv
    rw [visitStmts_cons_def, simple_for_roundtrip ln v st hv, okBind,
      visitStmts_cons_def, simple_for_roundtrip ln2 v st hv, okBind,
      visitStmts_nil_def]

/-- Witness for C4 at concrete inputs. -/
theorem claim_C4_witness :
    (visitStmt (.forStmt 3 (.name 3 ("i") .store) (.constant 3)
        [.forStmt 4 (.name 4 ("i") .store) (.constant 4) [.passStmt 4] []] [])
        stStrict =
      Except.error ⟨4, ("f"), .loopVarReuse ("i")⟩) ∧
    (visitStmts
        [.forStmt 3 (.name 3 ("i") .store) (.constant 3) [.passStmt 3] [],
         .forStmt 4 (.name 4 ("i") .store) (.constant 4) [.passStmt 4] []]
        stStrict = Except.ok stStrict) := by
  constructor
  · exact claim_C4_loop_reuse.2.2.1 3 4 ("i") stStrict rfl (by decide) (by simp [stStrict])
  · exact claim_C4_loop_reuse.2.2.2 3 4 ("i") stStrict (by simp [stStrict])

theorem mem_foldl_inter (n : String) : ∀ (t : List Vars) (h : Vars),
    (n ∈ t.foldl (fun a s => a ∩ s) h) ↔ (n ∈ h ∧ ∀ A ∈ t, n ∈ A) := by
  intro t
  induction t with
  | nil => intro h; simp
  | cons x xs ih =>
      intro h
      rw [List.foldl_cons, ih (h ∩ x)]
      constructor
      · rintro ⟨hhx, hxs⟩
        have hmem := Finset.mem_inter.mp hhx
        refine ⟨hmem.1, ?_⟩
        intro A hA
        cases List.mem_cons.mp hA with
        | inl he => subst he; exact hmem.2
        | inr ht => exact hxs A ht
      · rintro ⟨hh, hall⟩
        refine ⟨Finset.mem_inter.mpr ⟨hh, hall x (List.mem_cons_self _ _)⟩, ?_⟩
        intro A hA
        exact hall A (List.mem_cons.mpr (Or.inr hA))

/-- Membership in `set.intersection(*scopes)` for a nonempty list. -/
theorem mem_interList {l : List Vars} (hl : l ≠ []) (n : String) :
    (n ∈ interList l) ↔ ∀ A ∈ l, n ∈ A := by
  cases l with
  | nil => exact absurd rfl hl
  | cons h t =>
      unfold interList
      rw [mem_foldl_inter]
      constructor
      · rintro ⟨hh, ht⟩ A hA
        cases List.mem_cons.mp hA with
        | inl he => subst he; exact hh
        | inr htl => exact ht A htl
      · intro hall
        exact ⟨hall h (List.mem_cons_self _ _),
          fun A hA => hall A (List.mem_cons.mpr (Or.inr hA))⟩

/-- C1: after a successfully checked `if`/`elif`/`else` chain, the parent
scope is extended by exactly the intersection of the retained per-branch
scopes when the chain ends in an `else`, and is left unchanged otherwise:
a name becomes visible after the conditional iff it was visible before, or
the chain has a terminal `else` and every retained branch scope binds it. -/
theorem claim_C1_if_promotion :
    ∀ (ln : Nat) (test : Expr) (body orelse : List Stmt) (st st' : St)
      (S : Vars) (rest : List Vars),
    st.scopes = S :: rest →
    visitStmt (.ifStmt ln test body orelse) st = Except.ok st' →
    ∃ st1 out,
      visitStmts body (pushScope (walrusTargets test) st) = Except.ok st1 ∧
      visitIfChain (walrusTargets test) [st1.scopes.headD ∅] orelse (popScope st1)
        = Except.ok out ∧
      out.2.1 = chainHasElse orelse ∧
      out.1 ≠ [] ∧
      out.2.2.scopes = S :: rest ∧
      st'.scopes = (if chainHasElse orelse then S ∪ interList out.1 else S) :: rest ∧
      (∀ n : String, n ∈ st'.scopes.headD ∅ ↔
        (n ∈ S ∨ (chainHasElse orelse = true ∧ ∀ A ∈ out.1, n ∈ A))) := by
  intro ln test body orelse st st' S rest hsc h
  rw [visitStmt_ifStmt_def, bindOk] at h
  obtain ⟨st1, h1, h⟩ := h
  rw [bindOk] at h
  obtain ⟨out, h2, h3⟩ := h
  obtain ⟨hOk, hScopes, hHas, extra, hOut1⟩ := visitIfChain_inv orelse h2
  have hpop := stOk_scoped (visitStmts_inv body h1)
  have hsc2 : out.2.2.scopes = S :: rest := by rw [hScopes, hpop.1, hsc]
  have hne : out.1 ≠ [] := by
    rw [hOut1]
    simp
  have hst' : st'.scopes = (if chainHasElse orelse then S ∪ interList out.1 else S)
      :: rest := by
    cases hb : out.2.1 with
    | true =>
        have hce : chainHasElse orelse = true := by rw [← hHas, hb]
        rw [hb, if_pos rfl] at h3
        cases h3
        rw [if_pos hce]
        show updTop (fun h => h ∪ interList out.1) out.2.2.scopes = _
        rw [hsc2]
        rfl
    | false =>
        have hce : chainHasElse orelse = false := by rw [← hHas, hb]
        rw [hb] at h3
        simp only [Bool.false_eq_true, if_false] at h3
        cases h3
        rw [hce]
        simp only [Bool.false_eq_true, if_false]
        exact hsc2
  refine ⟨st1, out, h1, h2, hHas, hne, hsc2, hst', ?_⟩
  intro n
  rw [hst']
  cases hce : chainHasElse orelse with
  | true =>
      simp only [hce, if_true, List.headD_cons, Finset.mem_union,
        mem_interList hne n, true_and]
  | false =>
      simp only [hce, Bool.false_eq_true, if_false, List.headD_cons, false_and,
        or_false]

/-- Witness for C1 at concrete inputs: `if c: x = 1 else: x = 2` promotes
`x`; the same chain without the `else` promotes nothing. -/
theorem claim_C1_witness :
    ∃ st' st1 out,
      visitStmt (.ifStmt 1 (.constant 1)
        [.assign 2 [.name 2 ("x") .store] (.constant 2)]
        [.assign 3 [.name 3 ("x") .store] (.constant 3)]) stStrict
        = Except.ok st' ∧
      visitStmts [Stmt.assign 2 [.name 2 ("x") .store] (.constant 2)]
        (pushScope (walrusTargets (.constant 1)) stStrict) = Except.ok st1 ∧
      visitIfChain (walrusTargets (.constant 1)) [st1.scopes.headD ∅]
        [.assign 3 [.name 3 ("x") .store] (.constant 3)] (popScope st1)
        = Except.ok out ∧
      out.2.1 = chainHasElse [Stmt.assign 3 [.name 3 ("x") .store] (.constant 3)] ∧
      out.1 ≠ [] ∧
      out.2.2.scopes = [(∅ : Vars)] ∧
      st'.scopes = (if chainHasElse [Stmt.assign 3 [.name 3 ("x") .store] (.constant 3)]
          then (∅ : Vars) ∪ interList out.1 else (∅ : Vars)) :: ([] : List Vars) ∧
      (∀ n : String, n ∈ st'.scopes.headD ∅ ↔
        (n ∈ (∅ : Vars) ∨
          (chainHasElse [Stmt.assign 3 [.name 3 ("x") .store] (.constant 3)] = true ∧
            ∀ A ∈ out.1, n ∈ A))) := by
  have hrun : visitStmt (.ifStmt 1 (.constant 1)
      [.assign 2 [.name 2 ("x") .store] (.constant 2)]
      [.assign 3 [.name 3 ("x") .store] (.constant 3)]) stStrict
      = Except.ok { stStrict with scopes := [insert ("x") ∅] } := by
    simp [stStrict, walrusTargets.eq_def, visitIfChain.eq_def, chainHasElse.eq_def,
      extractAssignVarsList.eq_def, _extract_assign_vars.eq_def, bindVars, bindVar,
      varsOfList, updTop, pushScope, popScope, updateTop, interList, bindOk]
  obtain ⟨st1, out, ha, hb, hc, hd, he, hf, hg⟩ :=
    claim_C1_if_promotion 1 (.constant 1)
      [.assign 2 [.name 2 ("x") .store] (.constant 2)]
      [.assign 3 [.name 3 ("x") .store] (.constant 3)] stStrict
      { stStrict with scopes := [insert ("x") ∅] } ∅ [] rfl hrun
  exact ⟨_, st1, out, hrun, ha, hb, hc, hd, he, hf, hg⟩

/-- Splitting the handler loop around one handler. -/
theorem visitHandlers_split : ∀ (pre : List Handler) (hd : Handler)
    (post : List Handler) (st stH : St),
    visitHandlers (pre ++ hd :: post) st = Except.ok stH →
    ∃ stP stQ, visitHandlers pre st = Except.ok stP ∧
      visitHandler1 hd stP = Except.ok stQ ∧
      visitHandlers post stQ = Except.ok stH := by
  intro pre
  induction pre with
  | nil =>
      intro hd post st stH h
      rw [List.nil_append, visitHandlers_cons_def, bindOk] at h
      obtain ⟨stQ, hq, hrest⟩ := h
      exact ⟨st, stQ, by rw [visitHandlers_nil_def], hq, hrest⟩
  | cons p ps ih =>
      intro hd post st stH h
      rw [List.cons_append, visitHandlers_cons_def, bindOk] at h
      obtain ⟨st1, h1, h2⟩ := h
      obtain ⟨stP, stQ, hp, hq, hrest⟩ := ih hd post st1 stH h2
      exact ⟨stP, stQ, by rw [visitHandlers_cons_def, bindOk]; exact ⟨st1, h1, hp⟩,
        hq, hrest⟩

/-- C2: a `try` statement first checks every handler in its own pushed
scope seeded only with the exception name, against exactly the pre-`try`
scope stack (each handler restores the stack, so siblings cannot see each
other's bindings and nothing a handler binds survives it); the `try` body,
`else` and `finally` blocks are then visited directly in the current scope,
so a name bound in the `try` body stays visible in `else`, in `finally`,
and after the whole statement. -/
theorem claim_C2_try_visibility :
    ∀ (ln : Nat) (body : List Stmt) (handlers : List Handler)
      (orelse finalbody : List Stmt) (st st' : St),
    visitStmt (.tryStmt ln body handlers orelse finalbody) st = Except.ok st' →
    ∃ stH st1 st2,
      visitHandlers handlers st = Except.ok stH ∧
      stH.scopes = st.scopes ∧
      (∀ pre hd post, handlers = pre ++ hd :: post →
          ∃ stP stQ, visitHandlers pre st = Except.ok stP ∧
            stP.scopes = st.scopes ∧
            visitHandler1 hd stP = Except.ok stQ ∧
            stQ.scopes = st.scopes) ∧
      visitStmts body stH = Except.ok st1 ∧
      visitStmts orelse st1 = Except.ok st2 ∧
      visitStmts finalbody st2 = Except.ok st' ∧
      st1.scopes.tail = st.scopes.tail ∧
      (∀ n, n ∈ st1.scopes.headD ∅ →
        n ∈ st2.scopes.headD ∅ ∧ n ∈ st'.scopes.headD ∅) := by
  intro ln body handlers orelse finalbody st st' h
  rw [visitStmt_tryStmt_def, bindOk] at h
  obtain ⟨stH, hH, h⟩ := h
  rw [bindOk] at h
  obtain ⟨st1, h1, h⟩ := h
  rw [bindOk] at h
  obtain ⟨st2, h2, h3⟩ := h
  have hHs : stH.scopes = st.scopes := (visitHandlers_inv handlers hH).2
  refine ⟨stH, st1, st2, hH, hHs, ?_, h1, h2, h3, ?_, ?_⟩
  · intro pre hd post hsplit
    obtain ⟨stP, stQ, hp, hq, hrest⟩ := visitHandlers_split pre hd post st stH
      (by rw [← hsplit]; exact hH)
    have hPs : stP.scopes = st.scopes := (visitHandlers_inv pre hp).2
    have hQs : stQ.scopes = st.scopes := by
      rw [(visitHandler1_inv hd hq).2, hPs]
    exact ⟨stP, stQ, hp, hPs, hq, hQs⟩
  · rw [(visitStmts_inv body h1).tail_eq, hHs]
  · intro n hn
    have m1 := (visitStmts_inv orelse h2).head_mono hn
    exact ⟨m1, (visitStmts_inv finalbody h3).head_mono m1⟩

/-- Witness for C2 at a concrete input:
`try: x = 1 except E as e: y = 1 else: z = 1 finally: pass`. -/
theorem claim_C2_witness :
    ∃ st' stH st1 st2,
      visitStmt (.tryStmt 1
        [.assign 2 [.name 2 ("x") .store] (.constant 2)]
        [.mk 3 none (some ("e")) [.assign 4 [.name 4 ("y") .store] (.constant 4)]]
        [.assign 5 [.name 5 ("z") .store] (.constant 5)]
        [.passStmt 6]) stStrict = Except.ok st' ∧
      visitHandlers
        [.mk 3 none (some ("e")) [.assign 4 [.name 4 ("y") .store] (.constant 4)]]
        stStrict = Except.ok stH ∧
      stH.scopes = stStrict.scopes ∧
      visitStmts [Stmt.assign 2 [.name 2 ("x") .store] (.constant 2)] stH
        = Except.ok st1 ∧
      visitStmts [Stmt.assign 5 [.name 5 ("z") .store] (.constant 5)] st1
        = Except.ok st2 ∧
      visitStmts [Stmt.passStmt 6] st2 = Except.ok st' ∧
      st1.scopes.tail = stStrict.scopes.tail ∧
      (∀ n, n ∈ st1.scopes.headD ∅ →
        n ∈ st2.scopes.headD ∅ ∧ n ∈ st'.scopes.headD ∅) := by
  have hrun : visitStmt (.tryStmt 1
      [.assign 2 [.name 2 ("x") .store] (.constant 2)]
      [.mk 3 none (some ("e")) [.assign 4 [.name 4 ("y") .store] (.constant 4)]]
      [.assign 5 [.name 5 ("z") .store] (.constant 5)]
      [.passStmt 6]) stStrict =
      Except.ok { stStrict with scopes := [insert ("z") (insert ("x") ∅)] } := by
    simp [stStrict, extractAssignVarsList.eq_def, _extract_assign_vars.eq_def,
      bindVars, bindVar, varsOfList, updTop, pushScope, popScope, bindOk]
  obtain ⟨stH, st1, st2, hH, hHs, _, h1, h2, h3, htail, hmono⟩ :=
    claim_C2_try_visibility 1
      [.assign 2 [.name 2 ("x") .store] (.constant 2)]
      [.mk 3 none (some ("e")) [.assign 4 [.name 4 ("y") .store] (.constant 4)]]
      [.assign 5 [.name 5 ("z") .store] (.constant 5)]
      [.passStmt 6] stStrict
      { stStrict with scopes := [insert ("z") (insert ("x") ∅)] } hrun
  exact ⟨_, stH, st1, st2, hrun, hH, hHs, h1, h2, h3, htail, hmono⟩

/-- The widened scope-variable list `_check_class` builds before checking
any method: the caller's names, the class-level variables, and a
`self.<method>` entry per method. -/
def classScopeVars (classAst : ClassDef) (scopeVars : List String) : List String :=
  scopeVars ++ classLevelVarsOf classAst.body
    ++ (methodNodesOf classAst.body).map fun p => String.append ("self.") p.1

/-- C3: `_check_class` checks every non-constructor method with the
attribute-check flag equal to `bases.isEmpty` (so subclassing disables it);
every `self.`-prefixed name left in the constructor's final function scope
enters the object-attribute set; an object attribute seeded into a method's
initial state passes `_check_in_scope` silently, so constructor-bound
`self.<attr>` names are visible to attribute reads in the other methods;
and with the flag off, `checkSelfAttribute` (the `visit_Attribute` check)
never reports anything.  The original claim's stronger reading — that *no*
self-attribute use in a subclass method is ever reported — is refuted
separately: `visit_AugAssign` checks `self.<attr>` targets through
`_check_in_scope` regardless of the flag. -/
theorem claim_C3_self_attributes :
    ∀ (builtins : Vars) (classAst : ClassDef) (scopeVars : List String)
      (filename : Option String),
    (_check_class builtins classAst scopeVars filename =
      objAttrsOf builtins classAst (classScopeVars classAst scopeVars) filename
        >>= fun r =>
          checkMethods builtins (methodNodesOf classAst.body)
            (classScopeVars classAst scopeVars) r.1 classAst.bases.isEmpty
            filename r.2) ∧
    (∀ (sv : List String) (initM : FuncDef) (r0 d : Vars × List Diag),
      lookupMethod (methodNodesOf classAst.body) ("__init__") = some initM →
      _check_func builtins initM sv false ∅ filename = Except.ok r0 →
      objAttrsOf builtins classAst sv filename = Except.ok d →
      ∀ a ∈ r0.1, a.startsWith ("self.") → a ∈ d.1) ∧
    (∀ (objAttrs : Vars) (attrCheck : Bool) (fn : Option String)
        (ln : Nat) (a : String), a ∈ objAttrs →
      _check_in_scope ln a
          (initialState builtins scopeVars objAttrs attrCheck fn filename) =
        Except.ok
          (initialState builtins scopeVars objAttrs attrCheck fn filename)) ∧
    (∀ (ln : Nat) (value : Expr) (attr : String) (st : St),
      st.attrCheck = false →
      checkSelfAttribute ln value attr st = Except.ok st) := by
  intro builtins classAst scopeVars filename
  refine ⟨?_, ?_, ?_, ?_⟩
  · simp only [_check_class, classScopeVars]
    rw [Bool.not_not]
  · intro sv initM r0 d hlook hcf hobj
    simp only [objAttrsOf, hlook, hcf, okBind] at hobj
    injection hobj with h
    intro a ha hsw
    have hmem : a ∈
        varsOfList ((classLevelVarsOf classAst.body).map
          fun v => String.append ("self.") v)
        ∪ r0.1.filter (fun a => a.startsWith ("self.")) :=
      Finset.mem_union_right _ (Finset.mem_filter.mpr ⟨ha, hsw⟩)
    rw [← h]
    by_cases hc : ((!(!classAst.bases.isEmpty)) && _init_calls_any_method classAst)
        = true
    · simp only [hc, if_true]
      exact Finset.mem_union_left _ hmem
    · simp only [hc, if_false]
      exact hmem
  · intro objAttrs attrCheck fn ln a ha
    exact check_in_scope_ok_of_mem
      ⟨varsOfList scopeVars ∪ builtins ∪ objAttrs, List.mem_cons_self _ _,
        Finset.mem_union_right _ ha⟩
  · intro ln value attr st h
    simp [checkSelfAttribute, h]

/-- Witness for C3: a singleton object-attribute set makes `self.v` pass
the scope check inside a fresh method state, and a state with attribute
checking off silences `checkSelfAttribute`. -/
theorem claim_C3_witness :
    (("self.v" : String) ∈ (insert ("self.v") ∅ : Finset String)) ∧
    _check_in_scope 3 ("self.v")
        (initialState ∅ [] (insert ("self.v") ∅) true (some ("m")) none) =
      Except.ok
        (initialState ∅ [] (insert ("self.v") ∅) true (some ("m")) none) ∧
    stStrict.attrCheck = false ∧
    checkSelfAttribute 3 (.name 3 ("self") .load) ("v") stStrict =
      Except.ok stStrict := by
  refine ⟨Finset.mem_insert_self _ _, ?_, rfl, ?_⟩
  · exact (claim_C3_self_attributes ∅ ⟨("C"), [], []⟩ [] none).2.2.1
      (insert ("self.v") ∅) true (some ("m")) 3 ("self.v")
      (Finset.mem_insert_self _ _)
  · exact (claim_C3_self_attributes ∅ ⟨("C"), [], []⟩ [] none).2.2.2
      3 (.name 3 ("self") .load) ("v") stStrict rfl

/-- Counterexample to the original C3 wording: in a class *with* a base
class, the method body `self.v += 1` is still reported — `visit_AugAssign`
sends `self.v` through `_check_in_scope` even though attribute checking is
disabled for subclass methods. -/
theorem claim_C3_counterexample :
    _check_class ∅
      ⟨("D"), [.name 1 ("Base") .load],
        [.functionDef 2 ("m") ⟨[("self")], none, none, []⟩
          [.augAssign 3
            (.attributeE 3 (.name 3 ("self") .load) ("v") .store)
            (.constant 3)] []]⟩
      [("Base")] (some ("f.py")) =
    Except.ok [⟨3, ("f.py"), .varNotFound ("self.v") (insert ("self") ∅)⟩] := by
  have hsm : String.append ("self.") ("m") = ("self.m") := rfl
  simp +decide [_check_class, objAttrsOf, checkMethods, _check_func,
    initialState, methodNodesOf, classLevelVarsOf, insertMethod, lookupMethod,
    _init_calls_any_method, _extract_self_assignments, selfCallsStmts,
    selfCallsExprs, _decorated_to_skip_checking, varsOfList, bindVar, bindVars,
    pushScope, popScope, updTop, checkVars, _check_in_scope, _error,
    builtin_var_match, containsDD, nonGlobalUnion, checkSelfAttribute,
    St.locName, okBind, bindOk, hsm, FuncDef.toStmt, _extract_assign_vars,
    extractAssignVarsList]

end BlockScoping
